import Mathlib

set_option linter.unreachableTactic false
set_option linter.unusedTactic false

/-!
# Verification of the kdlpy KDL parser/printer

Shallow embedding of the kdlpy repository (a KDL document-language parser
and printer written in Python) together with proofs about the claims of its
natural-language specification.

Python strings are modelled as `List Char` (sequences of Unicode scalar
values).  Indexing `s[i]` on the parser's `Stream`, which yields the empty
string `""` past the end, is modelled as `Option Char` (`none` = the empty
sentinel).  Python exceptions (`ParseError`, assertion failures) are
modelled with `Except`.  `while` loops are modelled either by `takeWhile`
style scans (when the loop only advances over a character class) or by
fueled recursion; running out of fuel raises a distinguished hard error, so
fuel exhaustion is never mistaken for a soft failure.
-/

/-- Sequences of Unicode codepoints, the model of Python `str`. -/
abbrev Chars := List Char

/-- `s[i]` on the kdlpy `Stream`: the codepoint at `i`, or `none` for the
empty-string EOF sentinel (`Stream.__getitem__` returns `""` out of range). -/
def charAt (s : Chars) (i : Nat) : Option Char := s.get? i

/-- Python slice `s[a:b]` with clamping (indices here are nonnegative). -/
def pySlice (s : Chars) (a b : Nat) : Chars := (s.drop a).take (b - a)

/-- `full.startswith(pre)` on Python strings. -/
def leadsWith : Chars → Chars → Bool
  | _, [] => true
  | [], _ :: _ => false
  | c :: cs, p :: ps => c == p && leadsWith cs ps

/-- Python `sub in s` (substring containment). -/
def containsSub : Chars → Chars → Bool
  | [], sub => leadsWith [] sub
  | c :: cs, sub => leadsWith (c :: cs) sub || containsSub cs sub

/-- One `str.replace` call with a single-character pattern: every occurrence
of `c` is replaced by `r` (single-character patterns make Python's
left-to-right non-overlapping replacement exactly a per-character
substitution). -/
def pyReplaceChar (c : Char) (r : Chars) (s : Chars) : Chars :=
  (s.map (fun x => if x = c then r else [x])).flatten

namespace Types
/-! ## Embedding of `src/kdl/types.py` (the printer side) -/

/-- `types.isIdentChar`: the printer's identifier-character predicate
(notably different from the parser's: it allows `#` and bans `<`, `>`, `,`). -/
def isIdentChar (o : Option Char) : Bool :=
  match o with
  | none => false
  | some ch =>
    -- reserved characters r'''\/(){}<>;[]=,"'''
    if ("\\/(){}<>;[]=,\"".toList).contains ch then false
    else
      let cp := ch.toNat
      -- nonprintable
      if cp < 0x20 then false
      -- invalid codepoint
      else if cp > 0x10FFFF then false
      -- spaces
      else if [0x09, 0x20, 0xA0, 0x1680, 0x202F, 0x205F, 0x3000, 0xFEFF].contains cp then false
      -- more spaces
      else if 0x2000 ≤ cp ∧ cp ≤ 0x200A then false
      -- line breaks
      else if [0x0A, 0x0D, 0x85, 0x0C, 0x2028, 0x2029].contains cp then false
      else true

/-- `types.isBareIdent`. -/
def isBareIdent (chars : Chars) : Bool :=
  match chars with
  | [] => false
  | c0 :: rest =>
    if (c0 :: rest).any (fun x => !(isIdentChar (some x))) then false
    else if ("0123456789".toList).contains c0 then false
    else if rest.length > 0 && ("+-".toList).contains c0 &&
        ("0123456789".toList).contains (rest.headD ' ') then false
    else if (c0 :: rest) = "true".toList ∨ (c0 :: rest) = "false".toList ∨
        (c0 :: rest) = "null".toList then false
    else true

/-- `types.escapedFromRaw`: the chain of seven `str.replace` calls. -/
def escapedFromRaw (chars : Chars) : Chars :=
  pyReplaceChar '\t' ['\\', 't'] <|
  pyReplaceChar '\r' ['\\', 'r'] <|
  pyReplaceChar '\n' ['\\', 'n'] <|
  pyReplaceChar '\x0C' ['\\', 'f'] <|
  pyReplaceChar '\x08' ['\\', 'b'] <|
  pyReplaceChar '"' ['\\', '"'] <|
  pyReplaceChar '\\' ['\\', '\\'] chars

/-- `types.printIdent`. -/
def printIdent (chars : Chars) : Chars :=
  if isBareIdent chars then chars else '"' :: escapedFromRaw chars ++ ['"']

/-- `types.printTag`. -/
def printTag (tag : Option Chars) : Chars :=
  match tag with
  | some t => '(' :: printIdent t ++ [')']
  | none => []

/-- The ender `'"' + "#" * i` tested by `findRequiredHashCount`. -/
def hashEnder (i : Nat) : Chars := '"' :: List.replicate i '#'

/-- The `for i in range(0, 100)` search loop of `types.findRequiredHashCount`;
`none` models falling off the loop into `assert False`. -/
def hashSearch (chars : Chars) (i : Nat) : Nat → Option Nat
  | 0 => none
  | r + 1 =>
    if containsSub chars (hashEnder i) then hashSearch chars (i + 1) r
    else some i

/-- `types.findRequiredHashCount`.  Returns `none` when the bounded search
(100 candidates) is exhausted, i.e. when the source hits `assert False`. -/
def findRequiredHashCount (chars : Chars) : Option Nat :=
  hashSearch chars 0 100

/-- `types.String.print`: a quoted, escaped string (the `PrintConfig` does
not influence this method). -/
def stringPrint (tag : Option Chars) (value : Chars) : Chars :=
  printTag tag ++ '"' :: escapedFromRaw value ++ ['"']

/-- `types.RawString.print`.  With `respectStringType` (the `config`
parameter's relevant field) the value is printed as `r#…"…"#…`; `none`
models the `AssertionError` escaping from `findRequiredHashCount`. -/
def rawStringPrint (respectStringType : Bool) (tag : Option Chars) (value : Chars) :
    Option Chars :=
  if respectStringType then
    (findRequiredHashCount value).map fun k =>
      printTag tag ++ 'r' :: List.replicate k '#' ++ '"' :: value ++ '"' :: List.replicate k '#'
  else
    some (printTag tag ++ '"' :: escapedFromRaw value ++ ['"'])

end Types

/-! ### Specification-side definitions (written from the spec's words, to be
compared with the source-side definitions above) -/

/-- The escape map claimed by the spec: exactly backslash, double quote,
backspace, form feed, line feed, carriage return and tab become their
two-character escapes; every other character is emitted unchanged. -/
def escSpec (c : Char) : Chars :=
  if c = '\\' then ['\\', '\\']
  else if c = '"' then ['\\', '"']
  else if c = '\x08' then ['\\', 'b']
  else if c = '\x0C' then ['\\', 'f']
  else if c = '\n' then ['\\', 'n']
  else if c = '\r' then ['\\', 'r']
  else if c = '\t' then ['\\', 't']
  else [c]

namespace Strm
/-! ## Embedding of `src/kdl/stream.py` (line/column lookup) -/

/-- The `for i, char in enumerate(chars): if char == "\n": append i` loop of
`Stream.__init__`, carried out from position `i`. -/
def lineBreaksGo (i : Nat) : Chars → List Nat
  | [] => []
  | c :: cs => if c = '\n' then i :: lineBreaksGo (i + 1) cs else lineBreaksGo (i + 1) cs

/-- `Stream._lineBreaks`: the precomputed positions of the LF characters. -/
def lineBreaks (chars : Chars) : List Nat := lineBreaksGo 0 chars

/-- Python `bisect.bisect_left(a, x)` restricted to the slice `[lo, hi)`:
the binary-search loop `while lo < hi: mid = (lo+hi)//2; ...`. -/
def bisectAux (a : List Nat) (x : Nat) (lo hi : Nat) : Nat :=
  if _h : lo < hi then
    if a.getD ((lo + hi) / 2) 0 < x then bisectAux a x ((lo + hi) / 2 + 1) hi
    else bisectAux a x lo ((lo + hi) / 2)
  else lo
termination_by hi - lo
decreasing_by
  all_goals omega

/-- Python `bisect.bisect_left(a, x)`. -/
def bisectLeft (a : List Nat) (x : Nat) : Nat := bisectAux a x 0 a.length

/-- `Stream.line`: `bisect_left(self._lineBreaks, index) + self.startLine`. -/
def line (chars : Chars) (startLine : Nat) (index : Nat) : Nat :=
  bisectLeft (lineBreaks chars) index + startLine

end Strm

namespace Errs
/-! ## Embedding of `src/kdl/errors.py` (`lineCol`) -/

/-- The `for i in range(index)` loop of `errors.lineCol`; `n` counts the
remaining iterations and `p` is the running position.  Past-the-end
positions read the empty sentinel, which is not `"\n"`, so they advance the
column, exactly as the source does on a `Stream`. -/
def lineColGo (chars : Chars) : Nat → Nat → Nat → Nat → Nat × Nat
  | 0, _, line, col => (line, col)
  | n + 1, p, line, col =>
    if charAt chars p = some '\n' then lineColGo chars n (p + 1) (line + 1) 1
    else lineColGo chars n (p + 1) line (col + 1)

/-- `errors.lineCol`, used by `ParseError` to report a position. -/
def lineCol (chars : Chars) (index : Nat) : Nat × Nat := lineColGo chars index 0 1 1

end Errs

namespace Pf
/-! ## Embedding of `src/kdl/parsefuncs.py` -/

/-- One parsed entry of a node: `(key, value)` with `key = none` for an
argument, as in `parseEntry`.  The value type is abstract — the collapse
algorithm of `parseBaseNode` never inspects values. -/
abbrev Entry (α : Type) := Option Chars × α

/-- The `for n, existingEntry in enumerate(node.entries): if
existingEntry[0] == entry[0]: node.entries[n] = entry; break` loop of
`parseBaseNode`: replace the first entry whose key equals `k`. -/
def replaceFirst (k : Chars) (e : Entry α) : List (Entry α) → List (Entry α)
  | [] => []
  | x :: xs => if x.1 = some k then e :: xs else x :: replaceFirst k e xs

/-- One iteration of the props-and-args loop body of `parseBaseNode` (lines
72–81).  The source tests `entry[0] in entryNames` against a set; the loop
maintains the invariant that `entryNames` is exactly the set of non-`None`
keys occurring in `node.entries` (appends add their key to the set,
replacements keep the key), so the test is modelled as a scan of the
accumulated entries. -/
def addEntry (acc : List (Entry α)) (e : Entry α) : List (Entry α) :=
  match e.1 with
  | some k => if acc.any (fun x => x.1 = some k) then replaceFirst k e acc else acc ++ [e]
  | none => acc ++ [e]

end Pf

/-! ### C2 specification side -/

/-- The value of the last assignment of key `k` in `l` (default `dflt`). -/
def lastVal (k : Chars) (dflt : α) : List (Pf.Entry α) → α
  | [] => dflt
  | (key, v) :: rest => lastVal k (if key = some k then v else dflt) rest

/-- Spec-side description of the effective entry list, written from the
claim's words: each property key appears exactly once, at the position of
its first assignment, carrying the value of its last assignment; arguments
are kept literally. -/
def specCollapsedEntries : List (Pf.Entry α) → List (Pf.Entry α)
  | [] => []
  | (none, v) :: rest => (none, v) :: specCollapsedEntries rest
  | (some k, v) :: rest =>
    (some k, lastVal k v rest) ::
      specCollapsedEntries (rest.filter (fun e => !(e.1 == some k)))
termination_by l => l.length
decreasing_by
  · simp
  · exact Nat.lt_succ_of_le (List.length_filter_le _ _)

/-- Keys of the accumulated entries are pairwise distinct (arguments, whose
key is `none`, are unconstrained). -/
def KeysDistinct (l : List (Pf.Entry α)) : Prop :=
  l.Pairwise fun a b => ∀ k : Chars, a.1 = some k → b.1 ≠ some k

/-- Every accumulated entry's value updated to the last assignment of its
key in `l` (arguments and keys unassigned in `l` keep their value). -/
def updateVals (l : List (Pf.Entry α)) (acc : List (Pf.Entry α)) : List (Pf.Entry α) :=
  acc.map fun a =>
    match a.1 with
    | none => a
    | some k => (some k, lastVal k a.2 l)

/-- The entries of `l` that do not collapse into `acc`: arguments, and
properties whose key does not occur in `acc`. -/
def freshOnes (acc l : List (Pf.Entry α)) : List (Pf.Entry α) :=
  l.filter fun e =>
    match e.1 with
    | none => true
    | some k => !(acc.any fun a => a.1 = some k)

namespace Pf

/-- `stream.eof(i)`: `index >= len` . -/
def eof (s : Chars) (i : Nat) : Bool := s.length ≤ i

/-- `s[i] == c` (false at the EOF sentinel). -/
def ceq (o : Option Char) (c : Char) : Bool := o == some c

/-- A `while p(s[i]): i += 1` scan starting at `i`: the first index at or
after `i` whose character fails `p` (EOF stops the scan because the empty
sentinel satisfies no character class). -/
def scanWhile (s : Chars) (i : Nat) (p : Char → Bool) : Nat :=
  i + ((s.drop i).takeWhile p).length

/-- A parse error: the `ParseError(s, i, msg)` exception with its raw index
(line/column are derived from the index by `errors.lineCol`, see `Errs`). -/
structure PErr where
  i : Nat
  msg : String
deriving DecidableEq, Repr

/-- `result.Result`: a production either succeeds with a value and the next
index, or fails softly carrying an index (`Result.fail`).  Hard errors
(raised `ParseError`s) live in the surrounding `Except`. -/
inductive R (α : Type) where
  | ok (v : α) (i : Nat)
  | fail (i : Nat)
deriving DecidableEq, Repr

/-- `Result.vi`: the value (`none` on soft failure) and the index. -/
def vi : R α → Option α × Nat
  | .ok v i => (some v, i)
  | .fail i => (none, i)

/-- `Result.i`. -/
def ri : R α → Nat
  | .ok _ i => i
  | .fail i => i

/-- The model's fuel-exhaustion error.  No claim is settled on a
fuel-exhausted run; concrete evaluations use ample fuel. -/
def fuelErr : PErr := ⟨999999999, "model: out of fuel"⟩

/-! ### Character classes (`parsefuncs.py`), on the sentinel-extended
character type. -/

/-- `parsefuncs.isWSChar`. -/
def isWSChar (o : Option Char) : Bool :=
  match o with
  | none => false
  | some ch =>
    let cp := ch.toNat
    if [0x9, 0x20, 0xA0, 0x1680].contains cp then true
    else if 0x2000 ≤ cp ∧ cp ≤ 0x200A then true
    else if [0x202F, 0x205F, 0x3000].contains cp then true
    else false

/-- `parsefuncs.isNewlineChar`. -/
def isNewlineChar (o : Option Char) : Bool :=
  match o with
  | none => false
  | some ch => [0x0A, 0x0D, 0x85, 0x0B, 0x0C, 0x2028, 0x2029].contains ch.toNat

/-- `parsefuncs.isLinespaceChar`. -/
def isLinespaceChar (o : Option Char) : Bool :=
  isWSChar o || isNewlineChar o

/-- `parsefuncs.isDisallowedLiteralChar`. -/
def isDisallowedLiteralChar (o : Option Char) : Bool :=
  match o with
  | none => false
  | some ch =>
    let cp := ch.toNat
    if cp ≤ 0x08 then true
    else if 0xE ≤ cp ∧ cp ≤ 0x1F then true
    else if cp = 0x7F then true
    else if 0xD800 ≤ cp ∧ cp ≤ 0xDFFF then true
    else if 0x200E ≤ cp ∧ cp ≤ 0x200F then true
    else if 0x202A ≤ cp ∧ cp ≤ 0x202E then true
    else if 0x2066 ≤ cp ∧ cp ≤ 0x2069 then true
    else if cp = 0xFEFF then true
    else false

/-- `parsefuncs.isIdentChar` (the parser's identifier predicate: bans
`(){}[]/\"#;=`, whitespace, newlines and disallowed literals). -/
def isIdentChar (o : Option Char) : Bool :=
  match o with
  | none => false
  | some ch =>
    if ("(){}[]/\\\"#;=".toList).contains ch then false
    else if isWSChar (some ch) then false
    else if isNewlineChar (some ch) then false
    else if isDisallowedLiteralChar (some ch) then false
    else true

/-- `parsefuncs.isSign`. -/
def isSign (o : Option Char) : Bool :=
  match o with
  | none => false
  | some ch => ch = '+' ∨ ch = '-'

/-- `parsefuncs.isDigit`. -/
def isDigit (o : Option Char) : Bool :=
  match o with
  | none => false
  | some ch => ("0123456789".toList).contains ch

/-- `parsefuncs.isBinaryDigit`. -/
def isBinaryDigit (o : Option Char) : Bool :=
  match o with
  | none => false
  | some ch => ch = '0' ∨ ch = '1'

/-- `parsefuncs.isOctalDigit`. -/
def isOctalDigit (o : Option Char) : Bool :=
  match o with
  | none => false
  | some ch => ("01234567".toList).contains ch

/-- `parsefuncs.isHexDigit`. -/
def isHexDigit (o : Option Char) : Bool :=
  match o with
  | none => false
  | some ch => ("0123456789abcdefABCDEF".toList).contains ch

/-- Value of one digit (decimal/binary/octal/hex). -/
def digitVal (c : Char) : Nat :=
  if '0' ≤ c ∧ c ≤ '9' then c.toNat - 48
  else if 'a' ≤ c ∧ c ≤ 'f' then c.toNat - 87
  else if 'A' ≤ c ∧ c ≤ 'F' then c.toNat - 55
  else 0

/-- Python `int(ds, base)` on a string of valid digits (underscores are
stripped by the callers before conversion, as in the source). -/
def digitsToNat (base : Nat) (ds : Chars) : Nat :=
  ds.foldl (fun acc c => acc * base + digitVal c) 0

/-- Python `int(cs, 10)` on an optionally signed digit string. -/
def intOfDecChars (cs : Chars) : Int :=
  match cs with
  | '-' :: ds => -(digitsToNat 10 ds : Int)
  | '+' :: ds => (digitsToNat 10 ds : Int)
  | ds => (digitsToNat 10 ds : Int)

/-- The exact rational value of an unsigned decimal literal
`digits [. digits]`. -/
def decDigitsQ (cs : Chars) : ℚ :=
  let ip := cs.takeWhile (· ≠ '.')
  let frac := (cs.dropWhile (· ≠ '.')).drop 1
  (digitsToNat 10 (ip ++ frac) : ℚ) / ((10 : ℚ) ^ frac.length)

/-- Python `float(cs)` on a signed decimal literal, modelled as the exact
decimal rational.  (CPython rounds to the nearest binary double; the model
is exact.  The deviation is confined to numeric values that no theorem in
this file inspects at an inexactly-representable input.) -/
def floatOfDecChars (cs : Chars) : ℚ :=
  match cs with
  | '-' :: ds => -(decDigitsQ ds)
  | '+' :: ds => decDigitsQ ds
  | ds => decDigitsQ ds

/-- ASCII `str.lower`, used only for comparisons against the all-ASCII
keyword strings (no non-ASCII character lowercases to a bare ASCII keyword
letter under Python `str.lower`, so the restriction is faithful there). -/
def pyLowerChar (c : Char) : Char :=
  if 'A' ≤ c ∧ c ≤ 'Z' then Char.ofNat (c.toNat + 32) else c

/-- `str.lower` on a string. -/
def pyLower (cs : Chars) : Chars := cs.map pyLowerChar

/-- The number mantissa of `types.Decimal`: Python stores `int(chars)` when
the literal is integral and `float(chars)` otherwise (floats modelled as
exact decimal rationals, see `floatOfDecChars`). -/
inductive Mant where
  | int (v : Int)
  | float (v : ℚ)
deriving DecidableEq, Repr

/-- The parsed KDL values built by the parser (`types.Binary/Octal/Hex/
Decimal/Bool/Null/String` plus `types.Infinity`/`types.NaN`).
`Infinity` and `NaN` are referenced by `parseKeyword` but their class
definitions are absent from `src/kdl/types.py`; those two constructors are
modelled from the spec: `#inf`/`#-inf`/`#nan` produce positive infinity,
negative infinity and NaN float values. -/
inductive KValue where
  | binary (v : Int) (tag : Option Chars)
  | octal (v : Int) (tag : Option Chars)
  | hex (v : Int) (tag : Option Chars)
  | decimal (m : Mant) (e : Int) (tag : Option Chars)
  | bool (b : Bool) (tag : Option Chars)
  | null (tag : Option Chars)
  | str (v : Chars) (tag : Option Chars)
  | infinity (neg : Bool) (tag : Option Chars)
  | nan (tag : Option Chars)
deriving DecidableEq, Repr

/-- `val.tag = tag` (the assignment in `parseValue`). -/
def setTag (val : KValue) (tag : Option Chars) : KValue :=
  match val with
  | .binary v _ => .binary v tag
  | .octal v _ => .octal v tag
  | .hex v _ => .hex v tag
  | .decimal m e _ => .decimal m e tag
  | .bool b _ => .bool b tag
  | .null _ => .null tag
  | .str v _ => .str v tag
  | .infinity n _ => .infinity n tag
  | .nan _ => .nan tag

/-- A Python float value (finite floats modelled as exact rationals). -/
inductive PyFloat where
  | finite (q : ℚ)
  | inf (neg : Bool)
  | nan
deriving DecidableEq, Repr

/-- A value as stored into a node's entries after conversion: a native
Python scalar (from `nativeUntaggedValues` unwrapping or numeric tagged
conversion), a `KValue` left as-is, or an opaque wrapper for the stdlib
conversions (`decimal`, `date-time`, `ipv4`, …) whose library semantics
are outside the model (no theorem in this file inspects them). -/
inductive EVal where
  | pyNone
  | pyBool (b : Bool)
  | pyInt (v : Int)
  | pyFloat (v : PyFloat)
  | pyStr (v : Chars)
  | kval (v : KValue)
  | foreign (tag : Chars) (raw : Chars)
deriving DecidableEq, Repr

/-- The rational value of `Mant`. -/
def mantQ : Mant → ℚ
  | .int v => (v : ℚ)
  | .float q => q

/-- The `.value` property of the parsed value classes.  `Decimal.value` is
`mantissa * (10.0 ** exponent)`, a float even for integral mantissas; the
model computes it exactly in `ℚ`. -/
def kvalue : KValue → EVal
  | .binary v _ => .pyInt v
  | .octal v _ => .pyInt v
  | .hex v _ => .pyInt v
  | .decimal m e _ => .pyFloat (.finite (mantQ m * (10 : ℚ) ^ e))
  | .bool b _ => .pyBool b
  | .null _ => .pyNone
  | .str v _ => .pyStr v
  | .infinity n _ => .pyFloat (.inf n)
  | .nan _ => .pyFloat .nan

/-- The numeric value of a `Numberish` as an exact rational. -/
def numValQ : KValue → ℚ
  | .binary v _ => (v : ℚ)
  | .octal v _ => (v : ℚ)
  | .hex v _ => (v : ℚ)
  | .decimal m e _ => mantQ m * (10 : ℚ) ^ e
  | _ => 0

/-- Python `int(x)` on a float/rational: truncation toward zero
(`Int.tdiv` of the reduced numerator by the denominator). -/
def pyTrunc (q : ℚ) : Int :=
  q.num.tdiv q.den

/-- Best-effort `str(x)` for the interpolated numbers in conversion error
messages (exact for ints; Python float `repr` is not modelled — no theorem
inspects these message texts). -/
def numStr (q : ℚ) : String :=
  if q.den = 1 then toString q.num else toString q

/-- A signed-range check conversion (`converters.i8` … `converters.i64`,
and with `lo = 0` the `u8` … `u64` family): range-check `val.value`, then
`int(val.value)`. -/
def intConv (lo hi : ℚ) (sizeName : String) (pfi : Nat) (q : ℚ) : Except PErr EVal :=
  if lo ≤ q ∧ q < hi then pure (.pyInt (pyTrunc q))
  else throw ⟨pfi, numStr q ++ " doesn't fit in " ++ sizeName ++ "."⟩

/-- The `.tag` accessor used by `toNative`. -/
def KValue.getTag : KValue → Option Chars
  | .binary _ t | .octal _ t | .hex _ t | .decimal _ _ t | .bool _ t
  | .null t | .str _ t | .infinity _ t | .nan t => t

/-- `converters.toNative` under the default `ParseConfig`.  Numeric tags are
computed exactly; the stdlib-backed string tags (`date-time`, `ipv4`,
`url`, …) and the `decimal` family are modelled as opaque `foreign`
wrappers (the stdlib parsing, and its possible `pf.error`, is outside the
model; no theorem below depends on those branches).  `Infinity`/`NaN`
(whose classes are missing from `src/kdl/types.py`) fall through
unconverted. -/
def toNative (pfi : Nat) (frag : Chars) (val : KValue) : Except PErr EVal :=
  match val with
  | .binary _ _ | .octal _ _ | .hex _ _ | .decimal _ _ _ =>
    let q := numValQ val
    match val.getTag with
    | some t =>
      if t = "i8".toList then intConv (-(2 ^ 7)) (2 ^ 7) "an i8" pfi q
      else if t = "i16".toList then intConv (-(2 ^ 15)) (2 ^ 15) "an i16" pfi q
      else if t = "i32".toList then intConv (-(2 ^ 31)) (2 ^ 31) "an i32" pfi q
      else if t = "i64".toList then intConv (-(2 ^ 63)) (2 ^ 63) "an i64" pfi q
      else if t = "u8".toList then intConv 0 (2 ^ 8) "a u8" pfi q
      else if t = "u16".toList then intConv 0 (2 ^ 16) "a u16" pfi q
      else if t = "u32".toList then intConv 0 (2 ^ 32) "a u32" pfi q
      else if t = "u64".toList then intConv 0 (2 ^ 64) "a u64" pfi q
      else if t = "f32".toList ∨ t = "f64".toList then pure (.pyInt (pyTrunc q))
      else if t = "decimal64".toList ∨ t = "decimal128".toList then
        pure (.foreign t (frag.filter (· ≠ '_')))
      else pure (.kval val)
    | none => pure (.kval val)
  | .str v tag =>
    match tag with
    | some t =>
      if ["date-time", "time", "date", "decimal", "ipv4", "ipv6", "url", "uuid",
          "regex", "base64"].any (fun n => t = n.toList) then
        pure (.foreign t v)
      else pure (.kval val)
    | none => pure (.kval val)
  | _ => pure (.kval val)

/-! ### Leaf productions (no loops other than character scans) -/

/-- `parsefuncs.parseRepeatedChar`: count a run of `ch`; never fails. -/
def parseRepeatedChar (s : Chars) (start : Nat) (ch : Char) : R Nat :=
  let i := scanWhile s start (· == ch)
  .ok (i - start) i

/-- `parsefuncs.parseNewline`: CRLF as one newline, else any newline char. -/
def parseNewline (s : Chars) (start : Nat) : R Bool :=
  if ceq (charAt s start) '\x0D' && ceq (charAt s (start + 1)) '\x0A' then .ok true (start + 2)
  else if isNewlineChar (charAt s start) then .ok true (start + 1)
  else .fail start

/-- `parsefuncs.parseUnicodeSpace`. -/
def parseUnicodeSpace (s : Chars) (start : Nat) : R Bool :=
  if !isWSChar (charAt s start) then .fail start
  else .ok true (scanWhile s (start + 1) (fun c => isWSChar (some c)))

/-- `parsefuncs.parseSingleLineComment`. -/
def parseSingleLineComment (s : Chars) (start : Nat) : R Bool :=
  if !(ceq (charAt s start) '/' && ceq (charAt s (start + 1)) '/') then .fail start
  else
    let j := scanWhile s (start + 2) (fun c => !isNewlineChar (some c))
    .ok true (ri (parseNewline s j))

/-- `parsefuncs.parseSign`. -/
def parseSign (s : Chars) (start : Nat) : R Int :=
  if ceq (charAt s start) '+' then .ok 1 (start + 1)
  else if ceq (charAt s start) '-' then .ok (-1) (start + 1)
  else .fail start

/-- `parsefuncs.parseDigits`. -/
def parseDigits (s : Chars) (start : Nat) : R Bool :=
  if !isDigit (charAt s start) then .fail start
  else .ok true (scanWhile s (start + 1) (fun c => isDigit (some c) || c == '_'))

/-- `parsefuncs.isNumberStart`. -/
def isNumberStart (s : Chars) (start : Nat) : Bool :=
  if isDigit (charAt s start) then true
  else if isSign (charAt s start) && isDigit (charAt s (start + 1)) then true
  else false

/-- `parsefuncs.parseIdentStart`. -/
def parseIdentStart (s : Chars) (start : Nat) : R Char :=
  match charAt s start with
  | none => .fail start
  | some c =>
    if !isIdentChar (some c) then .fail start
    else if isDigit (some c) then .fail start
    else if isSign (some c) && isDigit (charAt s (start + 1)) then .fail start
    else if isSign (some c) && ceq (charAt s (start + 1)) '.' &&
        isDigit (charAt s (start + 2)) then .fail start
    else if c = '.' && isDigit (charAt s (start + 1)) then .fail start
    else .ok c (start + 1)

/-- `parsefuncs.parseBareIdent`. -/
def parseBareIdent (s : Chars) (start : Nat) : R Chars :=
  match parseIdentStart s start with
  | .fail _ => .fail start
  | .ok _ i0 =>
    let j := scanWhile s i0 (fun c => isIdentChar (some c))
    .ok (pySlice s start j) j

/-- The six keyword strings checked by `parseIdentString` and `parseKeyword`. -/
def keywordStrs : List Chars :=
  ["true".toList, "false".toList, "null".toList, "inf".toList, "-inf".toList, "nan".toList]

/-- `parsefuncs.parseIdentString`: a bare identifier-string; identifiers
that case-insensitively match a keyword are a hard error. -/
def parseIdentString (s : Chars) (start : Nat) : Except PErr (R Chars) :=
  match parseBareIdent s start with
  | .fail _ => pure (.fail start)
  | .ok ident i =>
    if keywordStrs.contains (pyLower ident) then
      throw ⟨start,
        "Ident strings confusable with keywords aren't allowed; use a quoted string. Got '\x7bident\x7d'."⟩
    else pure (.ok ident i)

/-- `parsefuncs.parseKeyword`: `#`-prefixed literals. -/
def parseKeyword (s : Chars) (start : Nat) : Except PErr (R KValue) :=
  if !ceq (charAt s start) '#' then pure (.fail start)
  else
    match parseBareIdent s (start + 1) with
    | .fail _ => pure (.fail start)
    | .ok ident i =>
      if ident = "true".toList then pure (.ok (.bool true none) i)
      else if ident = "false".toList then pure (.ok (.bool false none) i)
      else if ident = "null".toList then pure (.ok (.null none) i)
      else if ident = "inf".toList then pure (.ok (.infinity false none) i)
      else if ident = "-inf".toList then pure (.ok (.infinity true none) i)
      else if ident = "nan".toList then pure (.ok (.nan none) i)
      else if keywordStrs.contains (pyLower ident) then
        throw ⟨start, "KDL keywords must be written in lowercase, got #" ++ String.mk ident⟩
      else throw ⟨start, "Unknown keyword #" ++ String.mk ident⟩

/-- `parsefuncs.parseInitialHashes` (unused by the v2 grammar but present
in the source). -/
def parseInitialHashes (s : Chars) (start : Nat) : R Nat :=
  let i := scanWhile s start (· == '#')
  if ceq (charAt s i) '"' then .ok (i - start) i else .fail start

/-- `parsefuncs.parseFinalHashes` (unused by the v2 grammar but present in
the source); never fails. -/
def parseFinalHashes (s : Chars) (start : Nat) : R Nat :=
  let i := scanWhile s start (· == '#')
  .ok (i - start) i

/-- `parsefuncs.parseBinaryNumber`. -/
def parseBinaryNumber (s : Chars) (start : Nat) : Except PErr (R KValue) :=
  let (sgnOpt, i) := vi (parseSign s start)
  let sgn : Int := sgnOpt.getD 1
  if !(ceq (charAt s i) '0' && ceq (charAt s (i + 1)) 'b') then .ok (.fail start)
  else if !isBinaryDigit (charAt s (i + 2)) then
    .error ⟨i + 2, "Expected binary digit after 0b, got junk."⟩
  else
    let e := scanWhile s (i + 3) (fun c => isBinaryDigit (some c) || c == '_')
    .ok (.ok (.binary ((digitsToNat 2 ((pySlice s (i + 2) e).filter (· ≠ '_')) : Int) * sgn)
      none) e)

/-- `parsefuncs.parseOctalNumber`. -/
def parseOctalNumber (s : Chars) (start : Nat) : Except PErr (R KValue) :=
  let (sgnOpt, i) := vi (parseSign s start)
  let sgn : Int := sgnOpt.getD 1
  if !(ceq (charAt s i) '0' && ceq (charAt s (i + 1)) 'o') then .ok (.fail start)
  else if !isOctalDigit (charAt s (i + 2)) then
    .error ⟨i + 2, "Expected octal digit after 0o, got junk."⟩
  else
    let e := scanWhile s (i + 3) (fun c => isOctalDigit (some c) || c == '_')
    .ok (.ok (.octal ((digitsToNat 8 ((pySlice s (i + 2) e).filter (· ≠ '_')) : Int) * sgn)
      none) e)

/-- `parsefuncs.parseHexNumber`. -/
def parseHexNumber (s : Chars) (start : Nat) : Except PErr (R KValue) :=
  let (sgnOpt, i) := vi (parseSign s start)
  let sgn : Int := sgnOpt.getD 1
  if !(ceq (charAt s i) '0' && ceq (charAt s (i + 1)) 'x') then .ok (.fail start)
  else if !isHexDigit (charAt s (i + 2)) then
    .error ⟨i + 2, "Expected hex digit after 0x, got junk."⟩
  else
    let e := scanWhile s (i + 3) (fun c => isHexDigit (some c) || c == '_')
    .ok (.ok (.hex ((digitsToNat 16 ((pySlice s (i + 2) e).filter (· ≠ '_')) : Int) * sgn)
      none) e)

/-- `parsefuncs.parseDecimalNumber`.  The `int(chars)`-then-`float(chars)`
fallback is decided by the presence of a `.` (the only way the scanned
literal fails Python's `int`); the final "didn't actually parse" error is
unreachable for scanned literals and not modelled. -/
def parseDecimalNumber (s : Chars) (start : Nat) : Except PErr (R KValue) :=
  let i := ri (parseSign s start)
  match parseDigits s i with
  | .fail _ => .ok (.fail start)
  | .ok _ i2 =>
    let step : Except PErr Nat :=
      if ceq (charAt s i2) '.' then
        match parseDigits s (i2 + 1) with
        | .fail j => .error ⟨j, "Expected digit after decimal point."⟩
        | .ok _ j => .ok j
      else .ok i2
    match step with
    | .error e => .error e
    | .ok i3 =>
      let mantissaChars := (pySlice s start i3).filter (· ≠ '_')
      let mantissa : Mant :=
        if mantissaChars.contains '.' then .float (floatOfDecChars mantissaChars)
        else .int (intOfDecChars mantissaChars)
      if ceq (charAt s i3) 'e' || ceq (charAt s i3) 'E' then
        let exponentStart := i3 + 1
        let i4 := ri (parseSign s (i3 + 1))
        match parseDigits s i4 with
        | .fail j => .error ⟨j, "Expected number after exponent."⟩
        | .ok _ i5 =>
          .ok (.ok (.decimal mantissa
            (intOfDecChars ((pySlice s exponentStart i5).filter (· ≠ '_'))) none) i5)
      else .ok (.ok (.decimal mantissa 0 none) i3)

/-- `parsefuncs.parseNumber`: try each radix, hard error if a number starts
but no radix parser accepts it. -/
def parseNumber (s : Chars) (start : Nat) : Except PErr (R KValue) :=
  if !isNumberStart s start then .ok (.fail start)
  else
    match parseBinaryNumber s start with
    | .error e => .error e
    | .ok (.ok v i) => .ok (.ok v i)
    | .ok (.fail _) =>
      match parseOctalNumber s start with
      | .error e => .error e
      | .ok (.ok v i) => .ok (.ok v i)
      | .ok (.fail _) =>
        match parseHexNumber s start with
        | .error e => .error e
        | .ok (.ok v i) => .ok (.ok v i)
        | .ok (.fail _) =>
          match parseDecimalNumber s start with
          | .error e => .error e
          | .ok (.ok v i) => .ok (.ok v i)
          | .ok (.fail _) =>
            .error ⟨start, "Expected a number, but got junk after the initial digit."⟩

/-- The `\u{...}` tail of `parsefuncs.parseEscape`: `j` is the end of the
scanned hex-digit run starting at `start + 3`. -/
def uniEscape (s : Chars) (start j : Nat) : Except PErr (R Chars) :=
  if !ceq (charAt s j) '}' then
    .error ⟨start + 3, "Expected \x7d to finish a unicode escape"⟩
  else if j - (start + 3) < 1 then
    .error ⟨start + 3, "Unicode escape doesn't contain a codepoint"⟩
  else if j - (start + 3) > 6 then
    .error ⟨start + 3, "Unicode escapes can contain at most six digits"⟩
  else if 0xD800 ≤ digitsToNat 16 (pySlice s (start + 3) j) ∧
      digitsToNat 16 (pySlice s (start + 3) j) ≤ 0xDFFF then
    .error ⟨start + 3, "Unicode escapes can't encode surrogate codepoints (U+D800-DFFF)"⟩
  else if digitsToNat 16 (pySlice s (start + 3) j) > 0x10FFFF then
    .error ⟨start + 3, "Maximum codepoint in a unicode escape is 0x10ffff"⟩
  else .ok (.ok [Char.ofNat (digitsToNat 16 (pySlice s (start + 3) j))] (j + 1))

/-- `parsefuncs.parseEscape`.  The value may be empty (escaped whitespace
is discarded). -/
def parseEscape (s : Chars) (start : Nat) : Except PErr (R Chars) :=
  if !ceq (charAt s start) '\\' then .ok (.fail start)
  -- ch = s[start + 1]
  else if ceq (charAt s (start + 1)) 'n' then .ok (.ok ['\n'] (start + 2))
  else if ceq (charAt s (start + 1)) 'r' then .ok (.ok ['\x0D'] (start + 2))
  else if ceq (charAt s (start + 1)) 't' then .ok (.ok ['\t'] (start + 2))
  else if ceq (charAt s (start + 1)) '\\' then .ok (.ok ['\\'] (start + 2))
  else if ceq (charAt s (start + 1)) '"' then .ok (.ok ['"'] (start + 2))
  else if ceq (charAt s (start + 1)) 'b' then .ok (.ok ['\x08'] (start + 2))
  else if ceq (charAt s (start + 1)) 'f' then .ok (.ok ['\x0C'] (start + 2))
  else if ceq (charAt s (start + 1)) 's' then .ok (.ok [' '] (start + 2))
  else if ceq (charAt s (start + 1)) 'u' then
    if !ceq (charAt s (start + 2)) '{' then
      .error ⟨start, "Unicode escapes must surround their codepoint in \x7b\x7d"⟩
    else
      -- hexStart = start + 3; scan the run of hex digits to index j
      uniEscape s start (scanWhile s (start + 3) (fun c => isHexDigit (some c)))
  else if isLinespaceChar (charAt s (start + 1)) then
    .ok (.ok [] (scanWhile s (start + 2) (fun c => isLinespaceChar (some c))))
  else .error ⟨start, "Invalid character escape"⟩

/-- `parsefuncs.parseNodeTerminator`: single-line comment, newline, `;`, or
EOF (the source's heterogeneous `Result` values are all collapsed to
`true`; only presence matters to the callers). -/
def parseNodeTerminator (s : Chars) (start : Nat) : R Bool :=
  match parseSingleLineComment s start with
  | .ok v i => .ok v i
  | .fail _ =>
    match parseNewline s start with
    | .ok v i => .ok v i
    | .fail _ =>
      if ceq (charAt s start) ';' then .ok true (start + 1)
      else if eof s start then .ok true start
      else .fail start

/-! ### Whitespace productions (fueled loops) -/

mutual
/-- `parsefuncs.parseBlockComment` (nestable; EOF inside is a hard error). -/
def parseBlockComment (fuel : Nat) (s : Chars) (start : Nat) : Except PErr (R Bool) :=
  match fuel with
  | 0 => .error fuelErr
  | fuel + 1 =>
    if !(ceq (charAt s start) '/' && ceq (charAt s (start + 1)) '*') then .ok (.fail start)
    else blockCommentLoop fuel s start (start + 2)
termination_by structural fuel

/-- The scanning loop of `parseBlockComment`. -/
def blockCommentLoop (fuel : Nat) (s : Chars) (start i : Nat) : Except PErr (R Bool) :=
  match fuel with
  | 0 => .error fuelErr
  | fuel + 1 =>
    if eof s i then .error ⟨start, "Hit EOF while inside a multiline comment"⟩
    else if ceq (charAt s i) '*' && ceq (charAt s (i + 1)) '/' then .ok (.ok true (i + 2))
    else if ceq (charAt s i) '/' && ceq (charAt s (i + 1)) '*' then
      match parseBlockComment fuel s i with
      | .error e => .error e
      | .ok r => blockCommentLoop fuel s start (ri r)
    else blockCommentLoop fuel s start (i + 1)
termination_by structural fuel
end

/-- The `while True` scan of `parseWhitespace`: unicode space then block
comment until neither advances. -/
def whitespaceLoop (fuel : Nat) (s : Chars) (i : Nat) : Except PErr Nat :=
  match fuel with
  | 0 => .error fuelErr
  | fuel + 1 =>
    let (sp, i1) := vi (parseUnicodeSpace s i)
    match parseBlockComment fuel s i1 with
    | .error e => .error e
    | .ok r2 =>
      let (bc, i2) := vi r2
      if sp.isNone && bc.isNone then .ok i2
      else whitespaceLoop fuel s i2

/-- `parsefuncs.parseWhitespace`. -/
def parseWhitespace (fuel : Nat) (s : Chars) (start : Nat) : Except PErr (R Bool) :=
  match whitespaceLoop fuel s start with
  | .error e => .error e
  | .ok i => if i = start then .ok (.fail start) else .ok (.ok true i)

/-- `parsefuncs.parseEscline`: `\` optional whitespace, then a literal LF,
a single-line comment, or EOF. -/
def parseEscline (fuel : Nat) (s : Chars) (start : Nat) : Except PErr (R Bool) :=
  if !ceq (charAt s start) '\\' then .ok (.fail start)
  else
    match parseWhitespace fuel s (start + 1) with
    | .error e => .error e
    | .ok r =>
      let i := ri r
      if ceq (charAt s i) '\n' then .ok (.ok true (i + 1))
      else
        match parseSingleLineComment s i with
        | .ok _ j => .ok (.ok true j)
        | .fail _ =>
          if (charAt s i).isNone then .ok (.ok true i)
          else .ok (.fail start)

/-- The `while True` scan of `parseNodespace`. -/
def nodespaceLoop (fuel : Nat) (s : Chars) (i : Nat) : Except PErr Nat :=
  match fuel with
  | 0 => .error fuelErr
  | fuel + 1 =>
    match parseWhitespace fuel s i with
    | .error e => .error e
    | .ok r1 =>
      let i1 := ri r1
      match parseEscline fuel s i1 with
      | .error e => .error e
      | .ok r2 =>
        let (esc, i2) := vi r2
        if esc.isNone then .ok i2
        else nodespaceLoop fuel s i2

/-- `parsefuncs.parseNodespace`. -/
def parseNodespace (fuel : Nat) (s : Chars) (start : Nat) : Except PErr (R Bool) :=
  match nodespaceLoop fuel s start with
  | .error e => .error e
  | .ok i => if i = start then .ok (.fail start) else .ok (.ok true i)

/-- The `while True` scan of `parseLinespace`. -/
def linespaceLoop (fuel : Nat) (s : Chars) (i : Nat) : Except PErr Nat :=
  match fuel with
  | 0 => .error fuelErr
  | fuel + 1 =>
    let (nl, i1) := vi (parseNewline s i)
    match parseNodespace fuel s i1 with
    | .error e => .error e
    | .ok r2 =>
      let (ws, i2) := vi r2
      let (sc, i3) := vi (parseSingleLineComment s i2)
      if nl.isNone && ws.isNone && sc.isNone then .ok i3
      else linespaceLoop fuel s i3

/-- `parsefuncs.parseLinespace`. -/
def parseLinespace (fuel : Nat) (s : Chars) (start : Nat) : Except PErr (R Bool) :=
  match linespaceLoop fuel s start with
  | .error e => .error e
  | .ok i => if i = start then .ok (.fail start) else .ok (.ok true i)

/-- The `while True` scan of `parseSlashDash`. -/
def slashdashLoop (fuel : Nat) (s : Chars) (i : Nat) : Except PErr Nat :=
  match fuel with
  | 0 => .error fuelErr
  | fuel + 1 =>
    match parseLinespace fuel s i with
    | .error e => .error e
    | .ok r1 =>
      let (s1, i1) := vi r1
      match parseNodespace fuel s i1 with
      | .error e => .error e
      | .ok r2 =>
        let (s2, i2) := vi r2
        if s1.isNone && s2.isNone then .ok i2
        else slashdashLoop fuel s i2

/-- `parsefuncs.parseSlashDash`. -/
def parseSlashDash (fuel : Nat) (s : Chars) (start : Nat) : Except PErr (R Bool) :=
  if ceq (charAt s start) '/' && ceq (charAt s (start + 1)) '-' then
    match slashdashLoop fuel s (start + 2) with
    | .error e => .error e
    | .ok i => .ok (.ok true i)
  else .ok (.fail start)

/-! ### String productions -/

/-- The `while True` scanning loop of `parsefuncs.parseQuotedString`. -/
def quotedStringLoop (fuel : Nat) (s : Chars) (start hashCount i : Nat) (rawChars : Chars) :
    Except PErr (R Chars) :=
  match fuel with
  | 0 => .error fuelErr
  | fuel + 1 =>
    if ceq (charAt s i) '"' && (hashCount == 0) then
      let i1 := i + 1
      if ceq (charAt s i1) '#' then
        .error ⟨start, "Saw # characters at the end of a non-raw string."⟩
      else if ceq (charAt s i1) '"' then
        .error ⟨start, "Single-quote string was ended with multiple quote chars."⟩
      else .ok (.ok rawChars i1)
    else if ceq (charAt s i) '"' && (0 < hashCount) then
      -- Cheap exit for a lone literal "
      if !ceq (charAt s (i + 1)) '#' then
        quotedStringLoop fuel s start hashCount (i + 1) (rawChars ++ ['"'])
      else
        match parseRepeatedChar s (i + 1) '#' with
        | .fail _ => .error fuelErr  -- unreachable: parseRepeatedChar never fails
        | .ok endingHashCount hashEnd =>
          if endingHashCount < hashCount then
            quotedStringLoop fuel s start hashCount hashEnd (rawChars ++ pySlice s i hashEnd)
          else if endingHashCount > hashCount then
            .error ⟨start, "Expected " ++ toString hashCount ++
              " # chars at end of raw string; got " ++ toString endingHashCount ++ "."⟩
          else .ok (.ok rawChars hashEnd)
    else if (charAt s i).isNone then
      .error ⟨start, "Hit EOF while looking for the end of the string"⟩
    else
      match parseNewline s i with
      | .ok _ _ => .error ⟨start, "Saw an unescaped newline in a single-quote string."⟩
      | .fail _ =>
        if ceq (charAt s i) '\\' && (hashCount == 0) then
          match parseEscape s i with
          | .error e => .error e
          | .ok (.fail j) => .error ⟨j, "Invalid escape sequence in string"⟩
          | .ok (.ok ch j) => quotedStringLoop fuel s start hashCount j (rawChars ++ ch)
        else
          match charAt s i with
          | some c => quotedStringLoop fuel s start hashCount (i + 1) (rawChars ++ [c])
          | none => .error ⟨start, "Hit EOF while looking for the end of the string"⟩

/-- `parsefuncs.parseQuotedString`. -/
def parseQuotedString (fuel : Nat) (s : Chars) (start hashCount : Nat) :
    Except PErr (R Chars) :=
  quotedStringLoop fuel s start hashCount start []

/-- `parsefuncs.MSLine`: one line of a multiline string. -/
structure MSLine where
  i : Nat
  indent : Chars := []
  text : Chars := []
deriving DecidableEq, Repr

/-- One iteration of the dedent loop of `parsefuncs.processMultiline`:
whitespace-only lines contribute nothing; other lines must start with the
final line's prefix, which is removed. -/
def processLine (pre : Chars) (l : MSLine) : Except PErr MSLine :=
  if l.text = [] then .ok { l with indent := [] }
  else if leadsWith l.indent pre then .ok { l with indent := l.indent.drop pre.length }
  else .error ⟨l.i,
    "Multiline string line doesn't start with the same whitespace prefix as the final line."⟩

/-- `parsefuncs.processMultiline`. -/
def processMultiline (lines : List MSLine) (lastLine : MSLine) : Except PErr Chars :=
  if lastLine.text ≠ [] then
    .error ⟨lastLine.i, "Multiline string ended with non-whitespace content on last line."⟩
  else do
    let ls ← lines.mapM (processLine lastLine.indent)
    pure (List.intercalate ['\n'] (ls.map fun l => l.indent ++ l.text))

/-- The `while True` scanning loop of `parsefuncs.parseMultilineString`.
The source's `assert quoteCount == 3`, which fails on exactly four quotes,
is modelled as a hard error. -/
def multilineLoop (fuel : Nat) (s : Chars) (start hashCount : Nat)
    (lines : List MSLine) (line : MSLine) (i : Nat) : Except PErr (R Chars) :=
  match fuel with
  | 0 => .error fuelErr
  | fuel + 1 =>
    match parseNewline s i with
    | .ok _ j =>
      let j2 := scanWhile s j (fun c => isWSChar (some c))
      multilineLoop fuel s start hashCount (lines ++ [line]) ⟨j, pySlice s j j2, []⟩ j2
    | .fail _ =>
      if ceq (charAt s i) '"' then
        match parseRepeatedChar s i '"' with
        | .fail _ => .error fuelErr  -- unreachable
        | .ok quoteCount j =>
          if quoteCount == 1 || quoteCount == 2 then
            multilineLoop fuel s start hashCount lines
              { line with text := line.text ++ pySlice s i j } j
          else if quoteCount > 4 then
            .error ⟨i, "Saw " ++ toString quoteCount ++
              " consecutive quotes in a multi-line string."⟩
          else if quoteCount == 4 then
            .error ⟨i, "model: assert quoteCount == 3 failed"⟩
          else if hashCount == 0 then
            if ceq (charAt s j) '#' then
              .error ⟨j, "Saw # characters at the end of a non-raw string."⟩
            else
              match processMultiline lines line with
              | .error e => .error e
              | .ok rawChars => .ok (.ok rawChars j)
          else
            -- Cheap exit for a lone literal """
            if !ceq (charAt s j) '#' then
              multilineLoop fuel s start hashCount lines
                { line with text := line.text ++ ['"', '"', '"'] } j
            else
              match parseRepeatedChar s j '#' with
              | .fail _ => .error fuelErr  -- unreachable
              | .ok endingHashCount hashEnd =>
                if endingHashCount < hashCount then
                  multilineLoop fuel s start hashCount lines
                    { line with text := line.text ++ pySlice s i hashEnd } hashEnd
                else if endingHashCount > hashCount then
                  .error ⟨start, "Expected " ++ toString hashCount ++
                    " # chars at end of raw multiline string; got " ++
                    toString endingHashCount ++ "."⟩
                else
                  match processMultiline lines line with
                  | .error e => .error e
                  | .ok rawChars => .ok (.ok rawChars hashEnd)
      else if (charAt s i).isNone then
        .error ⟨start, "Hit EOF while looking for the end of the string"⟩
      else if ceq (charAt s i) '\\' && (hashCount == 0) then
        match parseEscape s i with
        | .error e => .error e
        | .ok (.fail j) => .error ⟨j, "Invalid escape sequence in string"⟩
        | .ok (.ok ch j) =>
          multilineLoop fuel s start hashCount lines { line with text := line.text ++ ch } j
      else
        match charAt s i with
        | some c =>
          multilineLoop fuel s start hashCount lines
            { line with text := line.text ++ [c] } (i + 1)
        | none => .error ⟨start, "Hit EOF while looking for the end of the string"⟩

/-- `parsefuncs.parseMultilineString`. -/
def parseMultilineString (fuel : Nat) (s : Chars) (start hashCount : Nat) :
    Except PErr (R Chars) :=
  match parseNewline s start with
  | .fail _ =>
    .error ⟨start, "Multiline strings must have a newline immediately after their opening quotes."⟩
  | .ok _ i0 =>
    let j := scanWhile s i0 (fun c => isWSChar (some c))
    multilineLoop fuel s start hashCount [] ⟨i0, pySlice s i0 j, []⟩ j

/-- `parsefuncs.parseString`: dispatch on the counted runs of `#` and `"`. -/
def parseString (fuel : Nat) (s : Chars) (start : Nat) : Except PErr (R Chars) :=
  match parseRepeatedChar s start '#' with
  | .fail _ => .error fuelErr  -- unreachable: the source asserts non-None
  | .ok hashCount i1 =>
    match parseRepeatedChar s i1 '"' with
    | .fail _ => .error fuelErr  -- unreachable
    | .ok quoteCount i2 =>
      if quoteCount == 0 then
        if hashCount == 0 then parseIdentString s i2
        else .ok (.fail start)
      else if quoteCount == 1 then parseQuotedString fuel s i2 hashCount
      else if quoteCount == 2 then parseQuotedString fuel s (i2 - 1) hashCount
      else if quoteCount == 3 then parseMultilineString fuel s i2 hashCount
      else .error ⟨start, "Encountered " ++ toString quoteCount ++ " quotes in a row."⟩

/-- `parsefuncs.parseTag`. -/
def parseTag (fuel : Nat) (s : Chars) (start : Nat) : Except PErr (R Chars) :=
  if !ceq (charAt s start) '(' then .ok (.fail start)
  else
    match parseNodespace fuel s (start + 1) with
    | .error e => .error e
    | .ok rns =>
      let i := ri rns
      match parseString fuel s i with
      | .error e => .error e
      | .ok (.fail _) => .ok (.fail start)
      | .ok (.ok tagv i2) =>
        match parseNodespace fuel s i2 with
        | .error e => .error e
        | .ok rns2 =>
          let i3 := ri rns2
          if !ceq (charAt s i3) ')' then
            .error ⟨i3, "Junk between tag ident and closing paren."⟩
          else .ok (.ok tagv (i3 + 1))

/-! ### Values, entries, nodes, documents -/

/-- The tail of `parseValue` once a value token was parsed: attach the tag
and apply conversion.  The default `ParseConfig` has no `valueConverters`,
so the `for … else` clause runs: untagged values unwrap to their `.value`
scalar (`nativeUntaggedValues`), tagged values go through
`converters.toNative` (`nativeTaggedValues`) with a `ParseFragment` built
from `s[valueStart:i]` at index `i`. -/
def valueFinish (s : Chars) (tag : Option Chars) (valueStart : Nat) (val0 : KValue)
    (i : Nat) : Except PErr (R EVal) :=
  let val := setTag val0 tag
  match tag with
  | none => .ok (.ok (kvalue val) i)
  | some _ =>
    match toNative i (pySlice s valueStart i) val with
    | .error e => .error e
    | .ok v => .ok (.ok v i)

/-- `parsefuncs.parseValue`: optional tag, then number / keyword / string,
then converter dispatch. -/
def parseValue (fuel : Nat) (s : Chars) (start : Nat) : Except PErr (R EVal) :=
  match parseTag fuel s start with
  | .error e => .error e
  | .ok rt =>
    let (tag, i1) := vi rt
    match parseNodespace fuel s i1 with
    | .error e => .error e
    | .ok rns =>
      let i2 := ri rns
      let valueStart := i2
      match parseNumber s i2 with
      | .error e => .error e
      | .ok (.ok v i3) => valueFinish s tag valueStart v i3
      | .ok (.fail _) =>
        match parseKeyword s i2 with
        | .error e => .error e
        | .ok (.ok v i3) => valueFinish s tag valueStart v i3
        | .ok (.fail _) =>
          match parseString fuel s i2 with
          | .error e => .error e
          | .ok (.ok sv i3) => valueFinish s tag valueStart (.str sv none) i3
          | .ok (.fail _) =>
            if ceq (charAt s i2) '\'' then
              .error ⟨i2, "KDL strings use double-quotes."⟩
            else
              match tag with
              | some _ => .error ⟨i2, "Found a tag, but no value following it."⟩
              | none => .ok (.fail start)

/-- `parsefuncs.parseProperty`. -/
def parseProperty (fuel : Nat) (s : Chars) (start : Nat) :
    Except PErr (R (Chars × EVal)) :=
  match parseString fuel s start with
  | .error e => .error e
  | .ok (.fail _) => .ok (.fail start)
  | .ok (.ok key i) =>
    match parseNodespace fuel s i with
    | .error e => .error e
    | .ok r =>
      let i2 := ri r
      if !ceq (charAt s i2) '=' then .ok (.fail start)
      else
        match parseNodespace fuel s (i2 + 1) with
        | .error e => .error e
        | .ok r2 =>
          let i3 := ri r2
          match parseValue fuel s i3 with
          | .error e => .error e
          | .ok (.fail j) => .error ⟨j, "Expected value after prop=."⟩
          | .ok (.ok v j) => .ok (.ok (key, v) j)

/-- `parsefuncs.parseAttribute`. -/
def parseAttribute (fuel : Nat) (s : Chars) (start : Nat) : Except PErr (R EVal) :=
  match parseValue fuel s start with
  | .error e => .error e
  | .ok (.fail _) => .ok (.fail start)
  | .ok (.ok v i) => .ok (.ok v i)

/-- `parsefuncs.parseEntry`: a property or an argument. -/
def parseEntry (fuel : Nat) (s : Chars) (start : Nat) :
    Except PErr (R (Option Chars × EVal)) :=
  match parseProperty fuel s start with
  | .error e => .error e
  | .ok (.ok kv i) => .ok (.ok (some kv.1, kv.2) i)
  | .ok (.fail _) =>
    match parseAttribute fuel s start with
    | .error e => .error e
    | .ok (.ok v i) => .ok (.ok (none, v) i)
    | .ok (.fail _) => .ok (.fail start)

/-- The props-and-args loop of `parseBaseNode` (lines 58–81): entries are
accumulated with `addEntry`; slashdashed entries are parsed and dropped;
the committed index only advances past successfully parsed entries. -/
def entriesLoop (fuel : Nat) (s : Chars) (i : Nat) (acc : List (Option Chars × EVal)) :
    Except PErr (List (Option Chars × EVal) × Nat) :=
  match fuel with
  | 0 => .error fuelErr
  | fuel + 1 =>
    match parseNodespace fuel s i with
    | .error e => .error e
    | .ok rns =>
      let (space, t1) := vi rns
      if space.isNone then .ok (acc, i)
      else
        match parseSlashDash fuel s t1 with
        | .error e => .error e
        | .ok rsd =>
          let (sd, t2) := vi rsd
          match parseEntry fuel s t2 with
          | .error e => .error e
          | .ok (.fail _) => .ok (acc, i)
          | .ok (.ok entry t3) =>
            if sd.isSome then entriesLoop fuel s t3 acc
            else entriesLoop fuel s t3 (addEntry acc entry)

/-- A parsed node: name, optional tag, effective entries, children
(`node.entries`/`node.nodes` of the in-repo `types.Node` that
`parsefuncs.py` manipulates; the `entries` list is the one the source
builds through `node.entries.append`/replacement). -/
inductive Node where
  | mk (name : Chars) (tag : Option Chars) (entries : List (Option Chars × EVal))
      (nodes : List Node)

/-- Node name accessor. -/
def Node.name : Node → Chars
  | .mk n _ _ _ => n

/-- Node tag accessor. -/
def Node.tag : Node → Option Chars
  | .mk _ t _ _ => t

/-- Node entries accessor. -/
def Node.entries : Node → List (Option Chars × EVal)
  | .mk _ _ e _ => e

/-- Node children accessor. -/
def Node.nodes : Node → List Node
  | .mk _ _ _ ns => ns

mutual
/-- `parsefuncs.parseBaseNode` under the default `ParseConfig` (whose
`nodeConverters` registry is empty, so the converter loop does nothing). -/
def parseBaseNode (fuel : Nat) (s : Chars) (start : Nat) : Except PErr (R (Option Node)) :=
  match fuel with
  | 0 => .error fuelErr
  | fuel + 1 =>
    match parseSlashDash fuel s start with
    | .error e => .error e
    | .ok rsd =>
      let (sd, i0) := vi rsd
      let nodeSD := sd.isSome
      match parseTag fuel s i0 with
      | .error e => .error e
      | .ok rt =>
        let (tag, i1) := vi rt
        match parseNodespace fuel s i1 with
        | .error e => .error e
        | .ok rns =>
          let i2 := ri rns
          match parseString fuel s i2 with
          | .error e => .error e
          | .ok (.fail _) => .ok (.fail start)
          | .ok (.ok name nameEnd) =>
            match entriesLoop fuel s nameEnd [] with
            | .error e => .error e
            | .ok (entries, i3) =>
              match sdChildrenLoop fuel s i3 with
              | .error e => .error e
              | .ok i4 =>
                match realChildrenLoop fuel s i4 with
                | .error e => .error e
                | .ok (children, i5) =>
                  match sdChildrenLoop fuel s i5 with
                  | .error e => .error e
                  | .ok i6 =>
                    match parseNodespace fuel s i6 with
                    | .error e => .error e
                    | .ok rns2 =>
                      let i7 := ri rns2
                      if nodeSD then .ok (.ok none i7)
                      else .ok (.ok (some (.mk name tag entries (children.getD []))) i7)
termination_by structural fuel

/-- The slashdashed-children loops of `parseBaseNode` (run both before and
after the real child block). -/
def sdChildrenLoop (fuel : Nat) (s : Chars) (i : Nat) : Except PErr Nat :=
  match fuel with
  | 0 => .error fuelErr
  | fuel + 1 =>
    match parseNodespace fuel s i with
    | .error e => .error e
    | .ok rns =>
      let (space, t1) := vi rns
      if space.isNone then .ok i
      else
        match parseSlashDash fuel s t1 with
        | .error e => .error e
        | .ok rsd =>
          let (sd, t2) := vi rsd
          if sd.isNone then .ok i
          else
            match parseNodeChildren fuel s t2 with
            | .error e => .error e
            | .ok (.fail _) => .ok i
            | .ok (.ok _ t3) => sdChildrenLoop fuel s t3
termination_by structural fuel

/-- The real-children "loop" of `parseBaseNode`: one nodespace + child
block, committed only when both parse. -/
def realChildrenLoop (fuel : Nat) (s : Chars) (i : Nat) :
    Except PErr (Option (List Node) × Nat) :=
  match fuel with
  | 0 => .error fuelErr
  | fuel + 1 =>
    match parseNodespace fuel s i with
    | .error e => .error e
    | .ok rns =>
      let (space, t1) := vi rns
      if space.isNone then .ok (none, i)
      else
        match parseNodeChildren fuel s t1 with
        | .error e => .error e
        | .ok (.fail _) => .ok (none, i)
        | .ok (.ok ch t2) => .ok (some ch, t2)
termination_by structural fuel

/-- `parsefuncs.parseNodeChildren`. -/
def parseNodeChildren (fuel : Nat) (s : Chars) (start : Nat) :
    Except PErr (R (List Node)) :=
  match fuel with
  | 0 => .error fuelErr
  | fuel + 1 =>
    if !ceq (charAt s start) '{' then .ok (.fail start)
    else
      match childrenLoop fuel s (start + 1) [] with
      | .error e => .error e
      | .ok (nodes, i) =>
        if eof s i then .error ⟨start, "Hit EOF while searching for end of child list"⟩
        else if !ceq (charAt s i) '}' then
          .error ⟨i, "Junk between end of child list and closing \x7d"⟩
        else .ok (.ok nodes (i + 1))
termination_by structural fuel

/-- The node loop of `parseNodeChildren`. -/
def childrenLoop (fuel : Nat) (s : Chars) (i : Nat) (nodes : List Node) :
    Except PErr (List Node × Nat) :=
  match fuel with
  | 0 => .error fuelErr
  | fuel + 1 =>
    match parseLinespace fuel s i with
    | .error e => .error e
    | .ok rls =>
      let i1 := ri rls
      match parseBaseNode fuel s i1 with
      | .error e => .error e
      | .ok (.fail j) => .ok (nodes, j)
      | .ok (.ok nodeOpt i2) =>
        let nodes2 := match nodeOpt with | some n => nodes ++ [n] | none => nodes
        match parseNodeTerminator s i2 with
        | .ok _ i3 => childrenLoop fuel s i3 nodes2
        | .fail i3 => .ok (nodes2, i3)
termination_by structural fuel
end

/-- The EOF sentinel rendered into the node-terminator error message (the
`f"… Got '{s[i]}'"` interpolation). -/
def sentStr (o : Option Char) : String :=
  match o with
  | some c => String.mk [c]
  | none => ""

/-- The node loop of `parsefuncs.parse`. -/
def docLoop (fuel : Nat) (s : Chars) (i : Nat) (nodes : List Node) :
    Except PErr (List Node × Nat) :=
  match fuel with
  | 0 => .error fuelErr
  | fuel + 1 =>
    match parseLinespace fuel s i with
    | .error e => .error e
    | .ok rls =>
      let i1 := ri rls
      match parseBaseNode fuel s i1 with
      | .error e => .error e
      | .ok (.fail j) => .ok (nodes, j)
      | .ok (.ok nodeOpt i2) =>
        let nodes2 := match nodeOpt with | some n => nodes ++ [n] | none => nodes
        match parseNodeTerminator s i2 with
        | .ok _ i3 => docLoop fuel s i3 nodes2
        | .fail i3 =>
          .error ⟨i3, "Expected a node terminator (newline, ;, or EOF). Got '" ++
            sentStr (charAt s i3) ++ "'"⟩

/-- `parsefuncs.parse` under the default `ParseConfig`: the document is its
list of nodes. -/
def parse (fuel : Nat) (s : Chars) : Except PErr (List Node) :=
  let i0 := if 0 < s.length && ceq (charAt s 0) (Char.ofNat 0xFEFF) then 1 else 0
  match docLoop fuel s i0 [] with
  | .error e => .error e
  | .ok (nodes, i) =>
    match parseLinespace fuel s i with
    | .error e => .error e
    | .ok rls =>
      let i2 := ri rls
      if !eof s i2 then .error ⟨i2, "Unexpected non-node content"⟩
      else .ok nodes

end Pf

namespace Types
/-! ## Printer-side value model (`types.py` value classes and `Node.print`) -/

/-- `printing.PrintConfig`. -/
structure PrintConfig where
  indent : Chars := ['\t']
  semicolons : Bool := false
  printNullArgs : Bool := true
  printNullProps : Bool := true
  respectRadix : Bool := true
  respectStringType : Bool := true
  exponent : Chars := ['e']
  sortProperties : Bool := false
deriving Repr

/-- `printing.defaults`. -/
def printDefaults : PrintConfig := {}

/-- Digit character for bases up to 16 (lowercase, as Python emits). -/
def digitChar (m : Nat) : Char := ("0123456789abcdef".toList).getD m '0'

/-- Digits of `n` in `base` (auxiliary, fueled by `n` itself). -/
def natToDigitsAux (base : Nat) : Nat → Nat → Chars → Chars
  | 0, _, acc => acc
  | f + 1, n, acc =>
    if n = 0 then acc else natToDigitsAux base f (n / base) (digitChar (n % base) :: acc)

/-- Digits of `n` in `base` (Python's `bin`/`oct`/`hex`/`str` digit part). -/
def natToDigits (base n : Nat) : Chars :=
  if n = 0 then ['0'] else natToDigitsAux base n n []

/-- Python `str(v)` for an int. -/
def intRepr (v : Int) : Chars :=
  if v < 0 then '-' :: natToDigits 10 v.natAbs else natToDigits 10 v.natAbs

/-- Python `bin(v)`. -/
def pyBin (v : Int) : Chars :=
  if v < 0 then '-' :: '0' :: 'b' :: natToDigits 2 v.natAbs
  else '0' :: 'b' :: natToDigits 2 v.natAbs

/-- Python `oct(v)`. -/
def pyOct (v : Int) : Chars :=
  if v < 0 then '-' :: '0' :: 'o' :: natToDigits 8 v.natAbs
  else '0' :: 'o' :: natToDigits 8 v.natAbs

/-- Python `hex(v)`. -/
def pyHex (v : Int) : Chars :=
  if v < 0 then '-' :: '0' :: 'x' :: natToDigits 16 v.natAbs
  else '0' :: 'x' :: natToDigits 16 v.natAbs

/-- The printer-side KDL values (`types.ExactValue/Binary/Octal/Decimal/
Hex/Bool/Null/RawString/String`).  `Decimal`'s mantissa is modelled for
integer mantissas only: printing a float mantissa goes through Python's
float `repr`, which is outside the model (no claim exercises it). -/
inductive PVal where
  | exact (chars : Chars) (tag : Option Chars)
  | binary (v : Int) (tag : Option Chars)
  | octal (v : Int) (tag : Option Chars)
  | decimal (mantissa : Int) (exponent : Int) (tag : Option Chars)
  | hex (v : Int) (tag : Option Chars)
  | bool (b : Bool) (tag : Option Chars)
  | null (tag : Option Chars)
  | rawString (v : Chars) (tag : Option Chars)
  | string (v : Chars) (tag : Option Chars)
deriving DecidableEq, Repr

/-- `isinstance(arg, Null)`. -/
def PVal.isNull : PVal → Bool
  | .null _ => true
  | _ => false

/-- The `print` method of each value class (`none` models the raw-string
assertion failure, see `rawStringPrint`). -/
def pvalPrint (config : PrintConfig) : PVal → Option Chars
  | .exact chars tag => some (printTag tag ++ chars)
  | .binary v tag =>
    some (printTag tag ++ (if config.respectRadix then pyBin v else intRepr v))
  | .octal v tag =>
    some (printTag tag ++ (if config.respectRadix then pyOct v else intRepr v))
  | .hex v tag =>
    some (printTag tag ++ (if config.respectRadix then pyHex v else intRepr v))
  | .decimal mantissa exponent tag =>
    some (printTag tag ++ intRepr mantissa ++
      (if exponent ≠ 0 then
        config.exponent ++ (if exponent > 0 then ['+'] else []) ++ intRepr exponent
      else []))
  | .bool b tag => some (printTag tag ++ (if b then "true".toList else "false".toList))
  | .null tag => some (printTag tag ++ "null".toList)
  | .rawString v tag => rawStringPrint config.respectStringType tag v
  | .string v tag => some (stringPrint tag v)

/-- Lexicographic (code-point) string comparison, Python `<=` on `str`. -/
def charsLe : Chars → Chars → Bool
  | [], _ => true
  | _ :: _, [] => false
  | a :: as, b :: bs => if a = b then charsLe as bs else decide (a.toNat < b.toNat)

/-- Stable insertion into a key-sorted property list (Python `sorted` with
`key=lambda x: x[0]` is a stable sort). -/
def insertByKey (e : Chars × PVal) : List (Chars × PVal) → List (Chars × PVal)
  | [] => [e]
  | x :: xs => if charsLe x.1 e.1 then x :: insertByKey e xs else e :: x :: xs

/-- Python `sorted(props.items(), key=lambda x: x[0])`. -/
def sortProps (props : List (Chars × PVal)) : List (Chars × PVal) :=
  props.foldl (fun acc e => insertByKey e acc) []

/-- The in-memory `types.Node` of `src/kdl/types.py`: name, optional tag,
argument list, ordered property map (`OrderedDict` modelled as an ordered
association list), child nodes.  Arguments and property values are given
directly as printer values (`toKdlValue` is the identity on them). -/
inductive Node where
  | mk (name : Chars) (tag : Option Chars) (args : List PVal)
      (props : List (Chars × PVal)) (nodes : List Node)

/-- Name of a printer-side node. -/
def Node.name : Node → Chars
  | .mk n _ _ _ _ => n

mutual
/-- `types.Node.print`. -/
def nodePrint (config : PrintConfig) (indentLevel : Nat) : Node → Option Chars
  | .mk name tag args props nodes => do
    let mut0 := (List.replicate indentLevel config.indent).flatten
    let s1 := mut0 ++ (match tag with
      | some t => '(' :: printIdent t ++ [')']
      | none => []) ++ printIdent name
    let s2 ← argsPrint config s1 args
    let props2 := if config.sortProperties then sortProps props else props
    let s3 ← propsPrint config s2 props2
    let s4 ←
      if nodes.isEmpty then pure s3
      else do
        let childrenText ← nodesPrint config (indentLevel + 1) nodes
        if childrenText.isEmpty then pure s3
        else pure (s3 ++ " \x7b\n".toList ++ childrenText ++
          (List.replicate indentLevel config.indent).flatten ++ ['\x7d'])
    pure (s4 ++ (if config.semicolons then ";\n".toList else ['\n']))

/-- The argument loop of `Node.print`. -/
def argsPrint (config : PrintConfig) (acc : Chars) : List PVal → Option Chars
  | [] => some acc
  | arg :: rest =>
    if !config.printNullArgs && arg.isNull then argsPrint config acc rest
    else do
      let p ← pvalPrint config arg
      argsPrint config (acc ++ ' ' :: p) rest

/-- The property loop of `Node.print`. -/
def propsPrint (config : PrintConfig) (acc : Chars) : List (Chars × PVal) → Option Chars
  | [] => some acc
  | (key, value) :: rest =>
    if !config.printNullProps && value.isNull then propsPrint config acc rest
    else do
      let p ← pvalPrint config value
      propsPrint config (acc ++ ' ' :: printIdent key ++ '=' :: p) rest

/-- The children loop of `Node.print`. -/
def nodesPrint (config : PrintConfig) (indentLevel : Nat) : List Node → Option Chars
  | [] => some []
  | n :: rest => do
    let a ← nodePrint config indentLevel n
    let b ← nodesPrint config indentLevel rest
    pure (a ++ b)
end

end Types

namespace Pf

/-- The per-line dedent of `processLine`, as a total function (the value it
returns whenever it does not raise): whitespace-only lines lose their
indent entirely, other lines lose the `pre` prefix. -/
def dedentLine (pre : Chars) (l : MSLine) : MSLine :=
  if l.text = [] then { l with indent := [] }
  else { l with indent := l.indent.drop pre.length }

/-- Modelled from the spec: the value of a multiline string whose dedent
prefix is `pre` — each line keeps its text, a non-whitespace-only line is
stripped of the prefix, and the lines are joined with a single `\n`. -/
def specMultilineValue (pre : Chars) (lines : List MSLine) : Chars :=
  List.intercalate ['\n']
    (lines.map fun l => (if l.text = [] then [] else l.indent.drop pre.length) ++ l.text)

end Pf

theorem pyReplaceChar_append (c : Char) (r : Chars) (a b : Chars) :
    pyReplaceChar c r (a ++ b) = pyReplaceChar c r a ++ pyReplaceChar c r b := by
  simp [pyReplaceChar]

theorem escapedFromRaw_append (a b : Chars) :
    Types.escapedFromRaw (a ++ b) = Types.escapedFromRaw a ++ Types.escapedFromRaw b := by
  simp [Types.escapedFromRaw, pyReplaceChar_append]

theorem escapedFromRaw_single (c : Char) : Types.escapedFromRaw [c] = escSpec c := by
  by_cases h1 : c = '\\'
  · subst h1; rfl
  · by_cases h2 : c = '"'
    · subst h2; rfl
    · by_cases h3 : c = '\x08'
      · subst h3; rfl
      · by_cases h4 : c = '\x0C'
        · subst h4; rfl
        · by_cases h5 : c = '\n'
          · subst h5; rfl
          · by_cases h6 : c = '\r'
            · subst h6; rfl
            · by_cases h7 : c = '\t'
              · subst h7; rfl
              · simp [Types.escapedFromRaw, pyReplaceChar, escSpec,
                  h1, h2, h3, h4, h5, h6, h7]

theorem escapedFromRaw_eq_spec (s : Chars) :
    Types.escapedFromRaw s = (s.map escSpec).flatten := by
  induction s with
  | nil => rfl
  | cons c cs ih =>
    have h : c :: cs = [c] ++ cs := rfl
    rw [h, escapedFromRaw_append, escapedFromRaw_single]
    simp [ih]

/-- C9.  When the printer emits an escaped quoted string, exactly the
characters backslash, double quote, backspace, form feed, line feed,
carriage return and tab are replaced by their two-character escapes
(`escSpec`, which maps every other character to itself unchanged), and the
quoted-string printer (`types.String.print`, also used by `printIdent` for
non-bare names, tags and keys) emits precisely the characterwise-escaped
body between two double quotes. -/
theorem claim9_escaped_string_printing :
    (∀ s : Chars, Types.escapedFromRaw s = (s.map escSpec).flatten) ∧
    (∀ tag value, Types.stringPrint tag value =
        Types.printTag tag ++ '"' :: (value.map escSpec).flatten ++ ['"']) ∧
    (∀ chars, Types.printIdent chars =
        if Types.isBareIdent chars then chars
        else '"' :: (chars.map escSpec).flatten ++ ['"']) := by
  refine ⟨escapedFromRaw_eq_spec, ?_, ?_⟩
  · intro tag value
    simp [Types.stringPrint, escapedFromRaw_eq_spec]
  · intro chars
    simp [Types.printIdent, escapedFromRaw_eq_spec]

/-! ### C5: raw-string hash counting -/

theorem hashSearch_some {chars : Chars} {i r k : Nat}
    (h : Types.hashSearch chars i r = some k) :
    containsSub chars (Types.hashEnder k) = false ∧
    ∀ j, i ≤ j → j < k → containsSub chars (Types.hashEnder j) = true := by
  induction r generalizing i with
  | zero => simp [Types.hashSearch] at h
  | succ r ih =>
    rw [Types.hashSearch] at h
    by_cases hc : containsSub chars (Types.hashEnder i) = true
    · rw [if_pos hc] at h
      obtain ⟨h1, h2⟩ := ih h
      refine ⟨h1, fun j hij hjk => ?_⟩
      rcases Nat.eq_or_lt_of_le hij with rfl | hlt
      · exact hc
      · exact h2 j hlt hjk
    · rw [if_neg hc] at h
      obtain rfl : i = k := Option.some.injEq .. ▸ h
      exact ⟨Bool.eq_false_iff.mpr hc, fun j hij hjk => absurd (lt_of_le_of_lt hij hjk) (lt_irrefl _)⟩

theorem hashSearch_none {chars : Chars} {i r : Nat}
    (h : Types.hashSearch chars i r = none) :
    ∀ j, i ≤ j → j < i + r → containsSub chars (Types.hashEnder j) = true := by
  induction r generalizing i with
  | zero => intro j h1 h2; omega
  | succ r ih =>
    rw [Types.hashSearch] at h
    by_cases hc : containsSub chars (Types.hashEnder i) = true
    · rw [if_pos hc] at h
      intro j hij hjr
      rcases Nat.eq_or_lt_of_le hij with rfl | hlt
      · exact hc
      · exact ih h j hlt (by omega)
    · rw [if_neg hc] at h
      exact absurd h (by simp)

/-- C5 counterexample.  For the string `"` followed by 99 `#`, the hash
count 100 satisfies the claimed property (the quote followed by 100 hashes
does not occur in the string), yet the printer chooses no hash count at
all: the bounded search in `findRequiredHashCount` is exhausted and
`RawString.print` dies in an assertion instead of printing. -/
theorem claim5_counterexample :
    Types.rawStringPrint true none ('"' :: List.replicate 99 '#') = none ∧
    containsSub ('"' :: List.replicate 99 '#') (Types.hashEnder 100) = false := by
  constructor
  · decide
  · decide

/-- C5 amended.  For every string `s` in which `"` followed by 99 `#` does
not occur (so that the 100-candidate bounded search cannot be exhausted),
the hash count `k` chosen when printing `s` as a raw string satisfies: `"`
followed by `k` `#` does not occur in `s`, `k` is the smallest natural
number with that property, and `RawString.print` surrounds the body with
exactly `k` hashes.  (For the remaining strings the printer fails an
assertion instead of choosing a count, as the counterexample shows.) -/
theorem claim5_hash_count_minimal (s : Chars)
    (h : containsSub s (Types.hashEnder 99) = false) :
    ∃ k, Types.findRequiredHashCount s = some k ∧
      containsSub s (Types.hashEnder k) = false ∧
      (∀ j, j < k → containsSub s (Types.hashEnder j) = true) ∧
      Types.rawStringPrint true none s =
        some ('r' :: List.replicate k '#' ++ '"' :: s ++ '"' :: List.replicate k '#') := by
  match hf : Types.findRequiredHashCount s with
  | none =>
    have := hashSearch_none (i := 0) (r := 100) hf 99 (by omega) (by omega)
    rw [h] at this
    exact absurd this (by simp)
  | some k =>
    obtain ⟨h1, h2⟩ := hashSearch_some hf
    refine ⟨k, rfl, h1, fun j hj => h2 j (Nat.zero_le _) hj, ?_⟩
    simp [Types.rawStringPrint, Types.findRequiredHashCount] at hf ⊢
    rw [hf]
    simp [Types.printTag]

/-- C5 witness: the amended theorem applied at the concrete string `a"b`,
whose minimal hash count is 1. -/
theorem claim5_witness :
    ∃ k, Types.findRequiredHashCount ("a\"b".toList) = some k ∧
      containsSub ("a\"b".toList) (Types.hashEnder k) = false ∧
      (∀ j, j < k → containsSub ("a\"b".toList) (Types.hashEnder j) = true) ∧
      Types.rawStringPrint true none ("a\"b".toList) =
        some ('r' :: List.replicate k '#' ++ '"' :: "a\"b".toList ++
          '"' :: List.replicate k '#') :=
  claim5_hash_count_minimal ("a\"b".toList) (by decide)

theorem lineBreaksGo_ge {cs : Chars} {i x : Nat} (h : x ∈ Strm.lineBreaksGo i cs) : i ≤ x := by
  induction cs generalizing i with
  | nil => simp [Strm.lineBreaksGo] at h
  | cons c cs ih =>
    rw [Strm.lineBreaksGo] at h
    by_cases hc : c = '\n'
    · rw [if_pos hc] at h
      rcases List.mem_cons.mp h with rfl | h
      · exact Nat.le_refl _
      · exact Nat.le_of_succ_le (ih h)
    · rw [if_neg hc] at h
      exact Nat.le_of_succ_le (ih h)

theorem lineBreaksGo_sorted (cs : Chars) (i : Nat) :
    (Strm.lineBreaksGo i cs).Pairwise (· < ·) := by
  induction cs generalizing i with
  | nil => simp [Strm.lineBreaksGo]
  | cons c cs ih =>
    rw [Strm.lineBreaksGo]
    by_cases hc : c = '\n'
    · rw [if_pos hc]
      exact List.Pairwise.cons (fun x hx => lineBreaksGo_ge hx) (ih (i + 1))
    · rw [if_neg hc]
      exact ih (i + 1)

/-- A list whose first `n` positions satisfy `p` and whose remaining
positions do not has exactly `n` elements satisfying `p`. -/
theorem countP_of_split (a : List Nat) (p : Nat → Bool) (n : Nat)
    (hn : n ≤ a.length)
    (h1 : ∀ j, j < n → p (a.getD j 0) = true)
    (h2 : ∀ j, n ≤ j → j < a.length → p (a.getD j 0) = false) :
    a.countP p = n := by
  induction a generalizing n with
  | nil => simp only [List.countP_nil]; simp at hn; omega
  | cons v rest ih =>
    match n with
    | 0 =>
      have hv : p v = false := h2 0 (Nat.le_refl 0) (by simp)
      have hrest : rest.countP p = 0 := by
        refine ih 0 (Nat.zero_le _) (by omega) ?_
        intro j _ hj
        exact h2 (j + 1) (by omega) (by simpa using Nat.succ_lt_succ hj)
      simp [List.countP_cons, hv, hrest]
    | m + 1 =>
      have hv : p v = true := h1 0 (by omega)
      have hrest : rest.countP p = m := by
        refine ih m (by simpa using hn) ?_ ?_
        · intro j hj
          exact h1 (j + 1) (by omega)
        · intro j hj hjl
          exact h2 (j + 1) (by omega) (by simpa using Nat.succ_lt_succ hjl)
      simp [List.countP_cons, hv, hrest]

theorem sorted_getD_lt {a : List Nat} (ha : a.Pairwise (· < ·)) {i j : Nat}
    (hij : i < j) (hj : j < a.length) : a.getD i 0 < a.getD j 0 := by
  have hi : i < a.length := Nat.lt_trans hij hj
  rw [List.getD_eq_getElem a 0 hi, List.getD_eq_getElem a 0 hj]
  exact List.pairwise_iff_get.mp ha ⟨i, hi⟩ ⟨j, hj⟩ hij

theorem bisectAux_eq_countP (a : List Nat) (ha : a.Pairwise (· < ·)) (x : Nat) :
    ∀ d lo hi, hi - lo ≤ d → lo ≤ hi → hi ≤ a.length →
      (∀ j, j < lo → a.getD j 0 < x) →
      (∀ j, hi ≤ j → j < a.length → ¬(a.getD j 0 < x)) →
      Strm.bisectAux a x lo hi = a.countP (fun v => decide (v < x)) := by
  intro d
  induction d with
  | zero =>
    intro lo hi hd hlh hha h1 h2
    obtain rfl : lo = hi := by omega
    rw [Strm.bisectAux, dif_neg (by omega : ¬lo < lo)]
    refine (countP_of_split a _ lo (by omega) ?_ ?_).symm
    · intro j hj; simpa using h1 j hj
    · intro j hj hjl; simpa using h2 j hj hjl
  | succ d ih =>
    intro lo hi hd hlh hha h1 h2
    rw [Strm.bisectAux]
    by_cases hlt : lo < hi
    · rw [dif_pos hlt]
      set mid := (lo + hi) / 2 with hmid
      have hmlo : lo ≤ mid := by omega
      have hmhi : mid < hi := by omega
      by_cases hc : a.getD mid 0 < x
      · rw [if_pos hc]
        refine ih (mid + 1) hi (by omega) (by omega) hha ?_ h2
        intro j hj
        rcases Nat.lt_or_ge j mid with hjm | hjm
        · exact Nat.lt_trans (sorted_getD_lt ha hjm (by omega)) hc
        · obtain rfl : j = mid := by omega
          exact hc
      · rw [if_neg hc]
        refine ih lo mid (by omega) (by omega) (by omega) h1 ?_
        intro j hj hjl
        rcases Nat.lt_or_ge mid j with hjm | hjm
        · intro hlt2
          exact hc (Nat.lt_trans (sorted_getD_lt ha hjm hjl) hlt2)
        · obtain rfl : j = mid := by omega
          exact hc
    · rw [dif_neg hlt]
      obtain rfl : lo = hi := by omega
      refine (countP_of_split a _ lo (by omega) ?_ ?_).symm
      · intro j hj; simpa using h1 j hj
      · intro j hj hjl; simpa using h2 j hj hjl

theorem bisectLeft_eq_countP (a : List Nat) (ha : a.Pairwise (· < ·)) (x : Nat) :
    Strm.bisectLeft a x = a.countP (fun v => decide (v < x)) :=
  bisectAux_eq_countP a ha x a.length 0 a.length (by omega) (by omega) (le_refl _)
    (by omega) (fun j hj hjl => by omega)

theorem lineBreaksGo_countP (cs : Chars) :
    ∀ k idx, (Strm.lineBreaksGo k cs).countP (fun v => decide (v < k + idx)) =
      (cs.take idx).countP (fun c => c == '\n') := by
  induction cs with
  | nil => intro k idx; simp [Strm.lineBreaksGo]
  | cons c cs ih =>
    intro k idx
    rw [Strm.lineBreaksGo]
    match idx with
    | 0 =>
      simp only [Nat.add_zero, List.take_zero, List.countP_nil]
      have hz : ∀ l : List Nat, (∀ x ∈ l, k ≤ x) → l.countP (fun v => decide (v < k)) = 0 := by
        intro l hl
        rw [List.countP_eq_zero]
        intro x hx
        simpa using Nat.not_lt.mpr (hl x hx)
      by_cases hc : c = '\n'
      · rw [if_pos hc]
        refine hz _ ?_
        intro x hx
        rcases List.mem_cons.mp hx with rfl | hx
        · exact Nat.le_refl _
        · exact Nat.le_of_succ_le (lineBreaksGo_ge hx)
      · rw [if_neg hc]
        exact hz _ fun x hx => Nat.le_of_succ_le (lineBreaksGo_ge hx)
    | n + 1 =>
      by_cases hc : c = '\n'
      · rw [if_pos hc]
        rw [List.take_succ_cons, List.countP_cons, List.countP_cons]
        have heq : k + 1 + n = k + (n + 1) := by omega
        rw [← heq, ih (k + 1) n]
        have hk : k < k + 1 + n := by omega
        simp [hc, hk]
      · rw [if_neg hc]
        rw [List.take_succ_cons, List.countP_cons]
        have : k + 1 + n = k + (n + 1) := by omega
        rw [← this, ih (k + 1) n]
        simp [hc]

theorem line_eq_countLF (chars : Chars) (idx : Nat) :
    Strm.line chars 1 idx = 1 + (chars.take idx).countP (fun c => c == '\n') := by
  rw [Strm.line, Strm.lineBreaks,
    bisectLeft_eq_countP _ (lineBreaksGo_sorted chars 0) idx]
  have := lineBreaksGo_countP chars 0 idx
  rw [Nat.zero_add] at this
  rw [this, Nat.add_comm]

theorem drop_view (s : Chars) (p : Nat) :
    s.drop p = match charAt s p with
      | none => []
      | some c => c :: s.drop (p + 1) := by
  induction s generalizing p with
  | nil => cases p <;> simp [charAt]
  | cons c cs ih =>
    cases p with
    | zero => simp [charAt]
    | succ p =>
      simp only [List.drop_succ_cons, charAt, List.get?_cons_succ]
      exact ih p

theorem lineColGo_fst (chars : Chars) :
    ∀ n p line col, (Errs.lineColGo chars n p line col).1 =
      line + ((chars.drop p).take n).countP (fun c => c == '\n') := by
  intro n
  induction n with
  | zero => intro p line col; simp [Errs.lineColGo]
  | succ n ih =>
    intro p line col
    rw [Errs.lineColGo]
    by_cases hc : charAt chars p = some '\n'
    · rw [if_pos hc, ih, drop_view chars p, hc]
      simp [List.countP_cons]
      omega
    · rw [if_neg hc, ih]
      match hv : charAt chars p with
      | none =>
        rw [drop_view chars p, hv]
        have hd : chars.drop (p + 1) = [] := by
          rw [drop_view chars (p + 1)]
          have : charAt chars (p + 1) = none := by
            simp only [charAt, List.get?_eq_none] at hv ⊢
            omega
          rw [this]
        rw [hd]
        simp
      | some c =>
        have hcc : ¬(c == '\n') = true := by
          intro h
          exact hc (by rw [hv]; simp at h; rw [h])
        conv_rhs => rw [drop_view chars p, hv]
        simp only [List.take_succ_cons, List.countP_cons]
        simp at hcc
        simp [hcc]

/-- C10.  The line number reported for parse-error positions is derived from
LF characters only: both `Stream.line` (the precomputed `_lineBreaks` array
binary-searched with `bisect_left`, with the default `startLine = 1`) and
`errors.lineCol` (used by `ParseError`) report, for every input and index,
one plus the number of LF characters strictly before that index — so lone
CR, NEL, FF, LS and PS never advance the reported line number. -/
theorem claim10_line_counts_only_lf (chars : Chars) (idx : Nat) :
    Strm.line chars 1 idx = 1 + (chars.take idx).countP (fun c => c == '\n') ∧
    (Errs.lineCol chars idx).1 = 1 + (chars.take idx).countP (fun c => c == '\n') := by
  refine ⟨line_eq_countLF chars idx, ?_⟩
  rw [Errs.lineCol, lineColGo_fst chars idx 0 1 1]
  simp

theorem lastVal_none_cons (k : Chars) (d v : α) (rest : List (Pf.Entry α)) :
    lastVal k d ((none, v) :: rest) = lastVal k d rest := by
  simp [lastVal]

theorem lastVal_some_cons_eq (k : Chars) (d v : α) (rest : List (Pf.Entry α)) :
    lastVal k d ((some k, v) :: rest) = lastVal k v rest := by
  simp [lastVal]

theorem lastVal_some_cons_ne (k k' : Chars) (h : k' ≠ k) (d v : α) (rest : List (Pf.Entry α)) :
    lastVal k d ((some k', v) :: rest) = lastVal k d rest := by
  simp [lastVal, h]

theorem lastVal_filter (k : Chars) (p : Pf.Entry α → Bool) (l : List (Pf.Entry α))
    (hp : ∀ e ∈ l, e.1 = some k → p e = true) :
    ∀ d, lastVal k d (l.filter p) = lastVal k d l := by
  induction l with
  | nil => intro d; rfl
  | cons x rest ih =>
    intro d
    have hrest : ∀ e ∈ rest, e.1 = some k → p e = true := fun e he => hp e (List.mem_cons_of_mem _ he)
    by_cases hx : p x = true
    · rw [List.filter_cons_of_pos hx]
      obtain ⟨key, v⟩ := x
      simp only [lastVal]
      exact ih hrest _
    · rw [List.filter_cons_of_neg (by simpa using hx)]
      obtain ⟨key, v⟩ := x
      have hkey : key ≠ some k := by
        intro hk
        exact hx (hp (key, v) (List.mem_cons_self _ _) hk)
      simp only [lastVal, if_neg hkey]
      exact ih hrest _

theorem updateVals_nil (acc : List (Pf.Entry α)) : updateVals [] acc = acc := by
  induction acc with
  | nil => rfl
  | cons a rest ih =>
    obtain ⟨key, v⟩ := a
    cases key <;> simp [updateVals, lastVal] at ih ⊢ <;> exact ih

theorem updateVals_append (l acc1 acc2 : List (Pf.Entry α)) :
    updateVals l (acc1 ++ acc2) = updateVals l acc1 ++ updateVals l acc2 := by
  simp [updateVals]

theorem updateVals_none_cons (v : α) (l acc : List (Pf.Entry α)) :
    updateVals ((none, v) :: l) acc = updateVals l acc := by
  unfold updateVals
  refine List.map_congr_left fun a _ => ?_
  obtain ⟨key, w⟩ := a
  cases key with
  | none => rfl
  | some k => simp [lastVal_none_cons]

theorem updateVals_some_cons_notin (k : Chars) (v : α) (l acc : List (Pf.Entry α))
    (h : ∀ a ∈ acc, a.1 ≠ some k) :
    updateVals ((some k, v) :: l) acc = updateVals l acc := by
  unfold updateVals
  refine List.map_congr_left fun a ha => ?_
  obtain ⟨key, w⟩ := a
  cases key with
  | none => rfl
  | some k' =>
    have : k' ≠ k := by
      intro hk
      exact h (some k', w) ha (by rw [hk])
    simp [lastVal_some_cons_ne k' k (Ne.symm this)]

theorem replaceFirst_keys (k : Chars) (e : Pf.Entry α) (he : e.1 = some k)
    (acc : List (Pf.Entry α)) :
    (Pf.replaceFirst k e acc).map (·.1) = acc.map (·.1) := by
  induction acc with
  | nil => rfl
  | cons x xs ih =>
    rw [Pf.replaceFirst]
    by_cases hx : x.1 = some k
    · rw [if_pos hx]
      simp [he, hx]
    · rw [if_neg hx]
      simp [ih]

theorem any_key_eq_of_keys_eq {acc1 acc2 : List (Pf.Entry α)}
    (h : acc1.map (·.1) = acc2.map (·.1)) (k : Chars) :
    (acc1.any fun a => a.1 = some k) = (acc2.any fun a => a.1 = some k) := by
  have h1 : ∀ l : List (Pf.Entry α),
      (l.any fun a => a.1 = some k) = (l.map (·.1)).any fun o => o = some k := by
    intro l
    induction l with
    | nil => rfl
    | cons x xs ih => simp [ih]
  rw [h1, h1, h]

theorem mem_replaceFirst {k : Chars} {e b : Pf.Entry α} {acc : List (Pf.Entry α)}
    (hb : b ∈ Pf.replaceFirst k e acc) : b = e ∨ b ∈ acc := by
  induction acc with
  | nil => simp [Pf.replaceFirst] at hb
  | cons x xs ih =>
    rw [Pf.replaceFirst] at hb
    by_cases hx : x.1 = some k
    · rw [if_pos hx] at hb
      rcases List.mem_cons.mp hb with rfl | hb
      · exact Or.inl rfl
      · exact Or.inr (List.mem_cons_of_mem _ hb)
    · rw [if_neg hx] at hb
      rcases List.mem_cons.mp hb with rfl | hb
      · exact Or.inr (List.mem_cons_self _ _)
      · rcases ih hb with h | h
        · exact Or.inl h
        · exact Or.inr (List.mem_cons_of_mem _ h)

theorem freshOnes_congr {acc1 acc2 : List (Pf.Entry α)}
    (h : ∀ k : Chars, (acc1.any fun a => a.1 = some k) = (acc2.any fun a => a.1 = some k))
    (l : List (Pf.Entry α)) : freshOnes acc1 l = freshOnes acc2 l := by
  unfold freshOnes
  refine List.filter_congr fun e _ => ?_
  obtain ⟨key, v⟩ := e
  cases key with
  | none => rfl
  | some k => simp [h k]

theorem freshOnes_cons_none (acc l : List (Pf.Entry α)) (v : α) :
    freshOnes acc ((none, v) :: l) = (none, v) :: freshOnes acc l := by
  unfold freshOnes
  rw [List.filter_cons_of_pos rfl]

theorem freshOnes_cons_some_in (acc l : List (Pf.Entry α)) (k : Chars) (v : α)
    (h : (acc.any fun a => a.1 = some k) = true) :
    freshOnes acc ((some k, v) :: l) = freshOnes acc l := by
  unfold freshOnes
  rw [List.filter_cons_of_neg (by simp [h])]

theorem freshOnes_cons_some_notin (acc l : List (Pf.Entry α)) (k : Chars) (v : α)
    (h : (acc.any fun a => a.1 = some k) = false) :
    freshOnes acc ((some k, v) :: l) = (some k, v) :: freshOnes acc l := by
  unfold freshOnes
  rw [List.filter_cons_of_pos (by simp [h])]

theorem freshOnes_append_none (acc l : List (Pf.Entry α)) (v : α) :
    freshOnes (acc ++ [(none, v)]) l = freshOnes acc l := by
  refine freshOnes_congr (fun k => ?_) l
  simp

theorem freshOnes_append_some (acc l : List (Pf.Entry α)) (k : Chars) (v : α) :
    freshOnes (acc ++ [(some k, v)]) l =
      (freshOnes acc l).filter fun e => !(e.1 == some k) := by
  unfold freshOnes
  rw [List.filter_filter]
  refine List.filter_congr fun e _ => ?_
  obtain ⟨key, w⟩ := e
  cases key with
  | none => simp
  | some k' =>
    by_cases hkk : k' = k
    · subst hkk
      simp
    · have hb : ((acc ++ [((some k : Option Chars), v)]).any fun a => a.1 = some k')
          = (acc.any fun a => a.1 = some k') := by
        rw [List.any_append]
        have hone : ([((some k : Option Chars), v)].any fun a => a.1 = some k') = false := by
          simp only [List.any_cons, List.any_nil, Bool.or_false]
          simp [Ne.symm hkk]
        rw [hone, Bool.or_false]
      have hbeq : ((some k' : Option Chars) == some k) = false := by
        simp [hkk]
      simp only [hb, hbeq, Bool.not_false, Bool.true_and]

theorem keysDistinct_append_none {acc : List (Pf.Entry α)} (h : KeysDistinct acc) (v : α) :
    KeysDistinct (acc ++ [(none, v)]) := by
  unfold KeysDistinct at h ⊢
  rw [List.pairwise_append]
  refine ⟨h, List.pairwise_singleton _ _, ?_⟩
  intro a _ b hb k hak
  rcases List.mem_singleton.mp hb with rfl
  simp

theorem keysDistinct_append_some {acc : List (Pf.Entry α)} {k : Chars}
    (hk : (acc.any fun a => a.1 = some k) = false) (h : KeysDistinct acc) (v : α) :
    KeysDistinct (acc ++ [(some k, v)]) := by
  unfold KeysDistinct at h ⊢
  rw [List.pairwise_append]
  refine ⟨h, List.pairwise_singleton _ _, ?_⟩
  intro a ha b hb k' hak
  rcases List.mem_singleton.mp hb with rfl
  intro hbk
  obtain rfl : k = k' := by simpa using hbk
  rw [List.any_eq_false] at hk
  exact hk a ha (by simp [hak])

theorem keysDistinct_replaceFirst {acc : List (Pf.Entry α)} {k : Chars} {e : Pf.Entry α}
    (he : e.1 = some k) (h : KeysDistinct acc) :
    KeysDistinct (Pf.replaceFirst k e acc) := by
  induction acc with
  | nil => exact h
  | cons x xs ih =>
    rw [KeysDistinct, List.pairwise_cons] at h
    obtain ⟨hx, hxs⟩ := h
    rw [Pf.replaceFirst]
    by_cases hxk : x.1 = some k
    · rw [if_pos hxk]
      rw [KeysDistinct, List.pairwise_cons]
      refine ⟨?_, hxs⟩
      intro b hb k' hek
      have : k' = k := by rw [he] at hek; simpa using hek.symm
      subst this
      exact hx b hb k' hxk
    · rw [if_neg hxk]
      rw [KeysDistinct, List.pairwise_cons]
      refine ⟨?_, ih hxs⟩
      intro b hb k' hxk'
      rcases mem_replaceFirst hb with rfl | hbxs
      · rw [he]
        intro hkk
        obtain rfl : k' = k := by simpa using hkk.symm
        exact hxk hxk'
      · exact hx b hbxs k' hxk'

theorem updateVals_replaceFirst (k : Chars) (v : α) (rest : List (Pf.Entry α)) :
    ∀ acc : List (Pf.Entry α), KeysDistinct acc →
      updateVals rest (Pf.replaceFirst k (some k, v) acc) =
        updateVals ((some k, v) :: rest) acc := by
  intro acc
  induction acc with
  | nil => intro _; rfl
  | cons x xs ih =>
    intro h
    rw [KeysDistinct, List.pairwise_cons] at h
    obtain ⟨hx, hxs⟩ := h
    rw [Pf.replaceFirst]
    by_cases hxk : x.1 = some k
    · rw [if_pos hxk]
      obtain ⟨key, w⟩ := x
      obtain rfl : key = some k := hxk
      unfold updateVals
      rw [List.map_cons, List.map_cons]
      simp only
      rw [lastVal_some_cons_eq]
      congr 1
      have : ∀ a ∈ xs, a.1 ≠ some k := fun a ha => hx a ha k rfl
      exact (updateVals_some_cons_notin k v rest xs this).symm
    · rw [if_neg hxk]
      unfold updateVals
      rw [List.map_cons, List.map_cons]
      have htail := ih hxs
      unfold updateVals at htail
      rw [htail]
      congr 1
      obtain ⟨key, w⟩ := x
      cases key with
      | none => rfl
      | some k' =>
        have : k' ≠ k := fun hkk => hxk (by simp [hkk])
        simp only
        rw [lastVal_some_cons_ne k' k (Ne.symm this)]

theorem foldl_addEntry_eq (l : List (Pf.Entry α)) :
    ∀ acc, KeysDistinct acc →
      l.foldl Pf.addEntry acc = updateVals l acc ++ specCollapsedEntries (freshOnes acc l) := by
  induction l with
  | nil =>
    intro acc _
    rw [List.foldl_nil, updateVals_nil]
    have h1 : freshOnes acc [] = [] := rfl
    rw [h1]
    rw [specCollapsedEntries]
    simp
  | cons e rest ih =>
    intro acc hacc
    obtain ⟨key, v⟩ := e
    rw [List.foldl_cons]
    cases key with
    | none =>
      have haddE : Pf.addEntry acc (none, v) = acc ++ [(none, v)] := rfl
      rw [haddE, ih _ (keysDistinct_append_none hacc v), freshOnes_append_none,
        updateVals_append, updateVals_none_cons, freshOnes_cons_none]
      rw [specCollapsedEntries]
      have hsingle : updateVals rest [((none : Option Chars), v)] = [(none, v)] := by
        simp [updateVals]
      rw [hsingle, List.append_assoc]
      rfl
    | some k =>
      by_cases hk : (acc.any fun a => a.1 = some k) = true
      · have haddE : Pf.addEntry acc (some k, v) = Pf.replaceFirst k (some k, v) acc := by
          simp [Pf.addEntry, hk]
        rw [haddE, ih _ (keysDistinct_replaceFirst rfl hacc),
          freshOnes_congr (any_key_eq_of_keys_eq (replaceFirst_keys k (some k, v) rfl acc)) rest,
          freshOnes_cons_some_in acc rest k v hk,
          updateVals_replaceFirst k v rest acc hacc]
      · have hkf : (acc.any fun a => a.1 = some k) = false := by
          rcases Bool.eq_false_or_eq_true (acc.any fun a => a.1 = some k) with h2 | h2
          · exact absurd h2 hk
          · exact h2
        have haddE : Pf.addEntry acc (some k, v) = acc ++ [(some k, v)] := by
          simp [Pf.addEntry, hkf]
        have hnotin : ∀ a ∈ acc, a.1 ≠ some k := by
          intro a ha h
          rw [List.any_eq_false] at hkf
          exact hkf a ha (by simp [h])
        rw [haddE, ih _ (keysDistinct_append_some hkf hacc v),
          freshOnes_append_some, updateVals_append,
          updateVals_some_cons_notin k v rest acc hnotin,
          freshOnes_cons_some_notin acc rest k v hkf]
        rw [specCollapsedEntries]
        have hlv : lastVal k v (freshOnes acc rest) = lastVal k v rest := by
          unfold freshOnes
          refine lastVal_filter k _ rest ?_ v
          intro e _ hek
          rw [hek]
          simp [hkf]
        have hsingle : updateVals rest [((some k : Option Chars), v)] =
            [(some k, lastVal k v rest)] := by
          simp [updateVals]
        rw [hsingle, hlv, List.append_assoc]
        rfl

theorem any_filter_keyne (k k' : Chars) (h : k ≠ k') (l : List (Pf.Entry α)) :
    ((l.filter fun e => !(e.1 == some k')).any fun e => e.1 = some k)
    = (l.any fun e => e.1 = some k) := by
  induction l with
  | nil => rfl
  | cons x xs ih =>
    by_cases hx : (x.1 == some k') = true
    · rw [List.filter_cons_of_neg (by simp [hx])]
      have hxk : (x.1 = some k) = False := by
        simp only [beq_iff_eq] at hx
        rw [hx]
        simp [Ne.symm h]
      simp [ih, hxk]
    · rw [List.filter_cons_of_pos (by simpa using hx)]
      simp [ih]

theorem spec_any (l : List (Pf.Entry α)) (k : Chars) :
    ((specCollapsedEntries l).any fun e => e.1 = some k) = (l.any fun e => e.1 = some k) := by
  induction l using specCollapsedEntries.induct with
  | case1 => rw [specCollapsedEntries]
  | case2 v rest ih =>
    rw [specCollapsedEntries]
    simp [ih]
  | case3 k' v rest ih =>
    rw [specCollapsedEntries]
    by_cases hkk : k' = k
    · subst hkk
      simp
    · rw [List.any_cons, List.any_cons]
      rw [ih, any_filter_keyne k k' (Ne.symm hkk) rest]

theorem not_any_filter_eq (k : Chars) (l : List (Pf.Entry α)) :
    ((l.filter fun e => !(e.1 == some k)).any fun e => e.1 = some k) = false := by
  induction l with
  | nil => rfl
  | cons x xs ih =>
    by_cases hx : (x.1 == some k) = true
    · rw [List.filter_cons_of_neg (by simp [hx])]
      exact ih
    · rw [List.filter_cons_of_pos (by simpa using hx)]
      rw [List.any_cons, ih, Bool.or_false]
      simpa using hx

theorem spec_mem_key {l : List (Pf.Entry α)} {b : Pf.Entry α}
    (hb : b ∈ specCollapsedEntries l) {k : Chars} (hk : b.1 = some k) :
    (l.any fun e => e.1 = some k) = true := by
  have h1 : ((specCollapsedEntries l).any fun e => e.1 = some k) = true :=
    List.any_eq_true.mpr ⟨b, hb, by simp [hk]⟩
  rw [spec_any] at h1
  exact h1

theorem keysDistinct_spec (l : List (Pf.Entry α)) :
    KeysDistinct (specCollapsedEntries l) := by
  induction l using specCollapsedEntries.induct with
  | case1 =>
    rw [specCollapsedEntries]
    exact List.Pairwise.nil
  | case2 v rest ih =>
    rw [specCollapsedEntries]
    rw [KeysDistinct, List.pairwise_cons]
    exact ⟨fun b _ k hk => by simp at hk, ih⟩
  | case3 k' v rest ih =>
    rw [specCollapsedEntries]
    rw [KeysDistinct, List.pairwise_cons]
    refine ⟨?_, ih⟩
    intro b hb k0 hk0
    obtain rfl : k' = k0 := by simpa using hk0
    intro hbk
    have := spec_mem_key hb hbk
    rw [not_any_filter_eq] at this
    exact absurd this (by simp)

theorem freshOnes_nil_acc (l : List (Pf.Entry α)) : freshOnes [] l = l := by
  unfold freshOnes
  rw [List.filter_eq_self]
  intro a _
  obtain ⟨key, v⟩ := a
  cases key <;> rfl

/-- C2.  The entry-accumulation loop of `parseBaseNode` (which builds every
successfully parsed node's effective entry list from the stream of parsed
entries, arguments having key `none`) produces exactly the spec-side
collapse `specCollapsedEntries`: each property key appears exactly once, at
the position of its first assignment in source order, carrying the value of
its last assignment; its keys are pairwise distinct; and a key occurs in
the result iff it was assigned at all. -/
theorem claim2_properties_collapse (α : Type) (l : List (Pf.Entry α)) :
    l.foldl Pf.addEntry [] = specCollapsedEntries l ∧
    KeysDistinct (specCollapsedEntries l) ∧
    ∀ k : Chars, ((specCollapsedEntries l).any fun e => e.1 = some k)
      = (l.any fun e => e.1 = some k) := by
  refine ⟨?_, keysDistinct_spec l, spec_any l⟩
  rw [foldl_addEntry_eq l [] List.Pairwise.nil, freshOnes_nil_acc]
  rfl

/-! ### C3: soft failure never consumes input -/

theorem blockCommentLoop_no_fail :
    ∀ fuel s start i j, Pf.blockCommentLoop fuel s start i ≠ .ok (.fail j) := by
  intro fuel
  induction fuel with
  | zero => intro s st i j h; simp [Pf.blockCommentLoop] at h
  | succ fuel ih =>
    intro s st i j h
    rw [Pf.blockCommentLoop] at h
    repeat' (first | (simp only [] at h; split at h) | split at h)
    all_goals simp_all

theorem quotedStringLoop_no_fail :
    ∀ fuel s start hc i raw j, Pf.quotedStringLoop fuel s start hc i raw ≠ .ok (.fail j) := by
  intro fuel
  induction fuel with
  | zero => intro s st hc i raw j h; simp [Pf.quotedStringLoop] at h
  | succ fuel ih =>
    intro s st hc i raw j h
    rw [Pf.quotedStringLoop] at h
    repeat' (first | (simp only [] at h; split at h) | split at h)
    all_goals simp_all

theorem multilineLoop_no_fail :
    ∀ fuel s start hc lines line i j,
      Pf.multilineLoop fuel s start hc lines line i ≠ .ok (.fail j) := by
  intro fuel
  induction fuel with
  | zero => intro s st hc lines line i j h; simp [Pf.multilineLoop] at h
  | succ fuel ih =>
    intro s st hc lines line i j h
    rw [Pf.multilineLoop] at h
    repeat' (first | (simp only [] at h; split at h) | split at h)
    all_goals simp_all

@[simp] theorem except_pure_eq_ok {α : Type} (a : α) :
    (pure a : Except Pf.PErr α) = Except.ok a := rfl

@[simp] theorem except_throw_eq_error {α : Type} (e : Pf.PErr) :
    (throw e : Except Pf.PErr α) = Except.error e := rfl

theorem sf_parseRepeatedChar : ∀ s i c j, Pf.parseRepeatedChar s i c = .fail j → j = i := by
  intro s i c j h
  simp [Pf.parseRepeatedChar] at h

theorem sf_parseNewline : ∀ s i j, Pf.parseNewline s i = .fail j → j = i := by
  intro s i j h
  rw [Pf.parseNewline] at h
  repeat' (first | (simp only [] at h; split at h) | split at h)
  all_goals simp_all

theorem sf_parseUnicodeSpace : ∀ s i j, Pf.parseUnicodeSpace s i = .fail j → j = i := by
  intro s i j h
  rw [Pf.parseUnicodeSpace] at h
  repeat' (first | (simp only [] at h; split at h) | split at h)
  all_goals simp_all

theorem sf_parseSingleLineComment :
    ∀ s i j, Pf.parseSingleLineComment s i = .fail j → j = i := by
  intro s i j h
  rw [Pf.parseSingleLineComment] at h
  repeat' (first | (simp only [] at h; split at h) | split at h)
  all_goals simp_all

theorem sf_parseSign : ∀ s i j, Pf.parseSign s i = .fail j → j = i := by
  intro s i j h
  rw [Pf.parseSign] at h
  repeat' (first | (simp only [] at h; split at h) | split at h)
  all_goals simp_all

theorem sf_parseDigits : ∀ s i j, Pf.parseDigits s i = .fail j → j = i := by
  intro s i j h
  rw [Pf.parseDigits] at h
  repeat' (first | (simp only [] at h; split at h) | split at h)
  all_goals simp_all

theorem sf_parseIdentStart : ∀ s i j, Pf.parseIdentStart s i = .fail j → j = i := by
  intro s i j h
  rw [Pf.parseIdentStart] at h
  repeat' (first | (simp only [] at h; split at h) | split at h)
  all_goals simp_all

theorem sf_parseBareIdent : ∀ s i j, Pf.parseBareIdent s i = .fail j → j = i := by
  intro s i j h
  rw [Pf.parseBareIdent] at h
  repeat' (first | (simp only [] at h; split at h) | split at h)
  all_goals simp_all

theorem sf_parseNodeTerminator :
    ∀ s i j, Pf.parseNodeTerminator s i = .fail j → j = i := by
  intro s i j h
  rw [Pf.parseNodeTerminator] at h
  repeat' (first | (simp only [] at h; split at h) | split at h)
  all_goals simp_all

theorem sf_parseInitialHashes : ∀ s i j, Pf.parseInitialHashes s i = .fail j → j = i := by
  intro s i j h
  rw [Pf.parseInitialHashes] at h
  repeat' (first | (simp only [] at h; split at h) | split at h)
  all_goals simp_all

theorem sf_parseFinalHashes : ∀ s i j, Pf.parseFinalHashes s i = .fail j → j = i := by
  intro s i j h
  simp [Pf.parseFinalHashes] at h

theorem sf_parseIdentString :
    ∀ s i j, Pf.parseIdentString s i = .ok (.fail j) → j = i := by
  intro s i j h
  rw [Pf.parseIdentString] at h
  repeat' (first | (simp only [] at h; split at h) | split at h)
  all_goals simp_all

theorem sf_parseKeyword : ∀ s i j, Pf.parseKeyword s i = .ok (.fail j) → j = i := by
  intro s i j h
  rw [Pf.parseKeyword] at h
  repeat' (first | (simp only [] at h; split at h) | split at h)
  all_goals simp_all

theorem sf_parseBinaryNumber :
    ∀ s i j, Pf.parseBinaryNumber s i = .ok (.fail j) → j = i := by
  intro s i j h
  rw [Pf.parseBinaryNumber] at h
  repeat' (first | (simp only [] at h; split at h) | split at h)
  all_goals simp_all

theorem sf_parseOctalNumber :
    ∀ s i j, Pf.parseOctalNumber s i = .ok (.fail j) → j = i := by
  intro s i j h
  rw [Pf.parseOctalNumber] at h
  repeat' (first | (simp only [] at h; split at h) | split at h)
  all_goals simp_all

theorem sf_parseHexNumber :
    ∀ s i j, Pf.parseHexNumber s i = .ok (.fail j) → j = i := by
  intro s i j h
  rw [Pf.parseHexNumber] at h
  repeat' (first | (simp only [] at h; split at h) | split at h)
  all_goals simp_all

theorem sf_parseDecimalNumber :
    ∀ s i j, Pf.parseDecimalNumber s i = .ok (.fail j) → j = i := by
  intro s i j h
  rw [Pf.parseDecimalNumber] at h
  repeat' (first | (simp only [] at h; split at h) | split at h)
  all_goals simp_all

theorem sf_parseNumber : ∀ s i j, Pf.parseNumber s i = .ok (.fail j) → j = i := by
  intro s i j h
  rw [Pf.parseNumber] at h
  repeat' (first | (simp only [] at h; split at h) | split at h)
  all_goals simp_all

/-- Skip the positive branch of an `if` when it provably differs from the
target of an equation. -/
theorem ite_skip {c : Prop} [Decidable c] {γ : Type} {A B T : γ}
    (h : (if c then A else B) = T) (hA : A ≠ T) : B = T := by
  by_cases hc : c
  · rw [if_pos hc] at h
    exact absurd h hA
  · rwa [if_neg hc] at h

theorem uniEscape_no_fail : ∀ s st p j, Pf.uniEscape s st p ≠ .ok (.fail j) := by
  intro s st p j h
  unfold Pf.uniEscape at h
  have h := ite_skip h (by simp)
  have h := ite_skip h (by simp)
  have h := ite_skip h (by simp)
  have h := ite_skip h (by simp)
  have h := ite_skip h (by simp)
  exact absurd h (by simp)

theorem sf_parseEscape : ∀ s i j, Pf.parseEscape s i = .ok (.fail j) → j = i := by
  intro s i j h
  unfold Pf.parseEscape at h
  by_cases c1 : (!Pf.ceq (charAt s i) '\\') = true
  · rw [if_pos c1] at h
    injection h with h1
    injection h1 with h2
    exact h2.symm
  · rw [if_neg c1] at h
    have h := ite_skip h (by simp)
    have h := ite_skip h (by simp)
    have h := ite_skip h (by simp)
    have h := ite_skip h (by simp)
    have h := ite_skip h (by simp)
    have h := ite_skip h (by simp)
    have h := ite_skip h (by simp)
    have h := ite_skip h (by simp)
    have h := ite_skip h (by
      by_cases hu : (!Pf.ceq (charAt s (i + 2)) '{') = true
      · rw [if_pos hu]
        simp
      · rw [if_neg hu]
        exact uniEscape_no_fail _ _ _ _)
    have h := ite_skip h (by simp)
    exact absurd h (by simp)

theorem parseMultilineString_no_fail :
    ∀ fuel s st hc j, Pf.parseMultilineString fuel s st hc ≠ .ok (.fail j) := by
  intro fuel s st hc j h
  rw [Pf.parseMultilineString] at h
  split at h
  · simp at h
  · exact multilineLoop_no_fail _ _ _ _ _ _ _ _ h

theorem sf_parseQuotedString :
    ∀ fuel s i hc j, Pf.parseQuotedString fuel s i hc = .ok (.fail j) → j = i := by
  intro fuel s i hc j h
  rw [Pf.parseQuotedString] at h
  exact absurd h (quotedStringLoop_no_fail _ _ _ _ _ _ _)

theorem sf_parseMultilineString :
    ∀ fuel s i hc j, Pf.parseMultilineString fuel s i hc = .ok (.fail j) → j = i := by
  intro fuel s i hc j h
  exact absurd h (parseMultilineString_no_fail _ _ _ _ _)

theorem repeatedChar_index {s : Chars} {c : Char} {i cnt i2 : Nat}
    (h : Pf.parseRepeatedChar s i c = .ok cnt i2) : i2 = i + cnt := by
  simp [Pf.parseRepeatedChar, Pf.scanWhile] at h
  omega

theorem sf_parseString : ∀ fuel s i j, Pf.parseString fuel s i = .ok (.fail j) → j = i := by
  intro fuel s i j h
  rw [Pf.parseString] at h
  split at h
  · simp at h
  next hashCount i1 heq1 =>
    split at h
    · simp at h
    next quoteCount i2 heq2 =>
      by_cases q0 : (quoteCount == 0) = true
      · rw [if_pos q0] at h
        by_cases h0 : (hashCount == 0) = true
        · rw [if_pos h0] at h
          have hj := sf_parseIdentString s i2 j h
          have e1 := repeatedChar_index heq1
          have e2 := repeatedChar_index heq2
          simp at q0 h0
          omega
        · rw [if_neg h0] at h
          simp at h
          omega
      · rw [if_neg q0] at h
        by_cases q1 : (quoteCount == 1) = true
        · rw [if_pos q1, Pf.parseQuotedString] at h
          exact absurd h (quotedStringLoop_no_fail _ _ _ _ _ _ _)
        · rw [if_neg q1] at h
          by_cases q2 : (quoteCount == 2) = true
          · rw [if_pos q2, Pf.parseQuotedString] at h
            exact absurd h (quotedStringLoop_no_fail _ _ _ _ _ _ _)
          · rw [if_neg q2] at h
            by_cases q3 : (quoteCount == 3) = true
            · rw [if_pos q3] at h
              exact absurd h (parseMultilineString_no_fail _ _ _ _ _)
            · rw [if_neg q3] at h
              simp at h

theorem sf_parseTag : ∀ fuel s i j, Pf.parseTag fuel s i = .ok (.fail j) → j = i := by
  intro fuel s i j h
  rw [Pf.parseTag] at h
  repeat' (first | (simp only [] at h; split at h) | split at h)
  all_goals simp_all

theorem sf_parseEscline : ∀ fuel s i j, Pf.parseEscline fuel s i = .ok (.fail j) → j = i := by
  intro fuel s i j h
  rw [Pf.parseEscline] at h
  repeat' (first | (simp only [] at h; split at h) | split at h)
  all_goals simp_all

theorem sf_parseWhitespace :
    ∀ fuel s i j, Pf.parseWhitespace fuel s i = .ok (.fail j) → j = i := by
  intro fuel s i j h
  rw [Pf.parseWhitespace] at h
  repeat' (first | (simp only [] at h; split at h) | split at h)
  all_goals simp_all

theorem sf_parseNodespace :
    ∀ fuel s i j, Pf.parseNodespace fuel s i = .ok (.fail j) → j = i := by
  intro fuel s i j h
  rw [Pf.parseNodespace] at h
  repeat' (first | (simp only [] at h; split at h) | split at h)
  all_goals simp_all

theorem sf_parseLinespace :
    ∀ fuel s i j, Pf.parseLinespace fuel s i = .ok (.fail j) → j = i := by
  intro fuel s i j h
  rw [Pf.parseLinespace] at h
  repeat' (first | (simp only [] at h; split at h) | split at h)
  all_goals simp_all

theorem sf_parseSlashDash :
    ∀ fuel s i j, Pf.parseSlashDash fuel s i = .ok (.fail j) → j = i := by
  intro fuel s i j h
  rw [Pf.parseSlashDash] at h
  repeat' (first | (simp only [] at h; split at h) | split at h)
  all_goals simp_all

theorem sf_parseBlockComment :
    ∀ fuel s i j, Pf.parseBlockComment fuel s i = .ok (.fail j) → j = i := by
  intro fuel s i j h
  match fuel with
  | 0 => simp [Pf.parseBlockComment] at h
  | fuel + 1 =>
    rw [Pf.parseBlockComment] at h
    split at h
    · simp_all
    · exact absurd h (blockCommentLoop_no_fail _ _ _ _ _)

theorem valueFinish_no_fail :
    ∀ s tag vs v i j, Pf.valueFinish s tag vs v i ≠ .ok (.fail j) := by
  intro s tag vs v i j h
  rw [Pf.valueFinish.eq_def] at h
  repeat' (first | (simp only [] at h; split at h) | split at h)
  all_goals simp_all

theorem sf_parseValue : ∀ fuel s i j, Pf.parseValue fuel s i = .ok (.fail j) → j = i := by
  intro fuel s i j h
  rw [Pf.parseValue] at h
  repeat' (first | (simp only [] at h; split at h) | split at h)
  all_goals first
    | simp_all
    | exact absurd h (valueFinish_no_fail _ _ _ _ _ _)

theorem sf_parseProperty :
    ∀ fuel s i j, Pf.parseProperty fuel s i = .ok (.fail j) → j = i := by
  intro fuel s i j h
  rw [Pf.parseProperty] at h
  repeat' (first | (simp only [] at h; split at h) | split at h)
  all_goals simp_all

theorem sf_parseAttribute :
    ∀ fuel s i j, Pf.parseAttribute fuel s i = .ok (.fail j) → j = i := by
  intro fuel s i j h
  rw [Pf.parseAttribute] at h
  repeat' (first | (simp only [] at h; split at h) | split at h)
  all_goals simp_all

theorem sf_parseEntry : ∀ fuel s i j, Pf.parseEntry fuel s i = .ok (.fail j) → j = i := by
  intro fuel s i j h
  rw [Pf.parseEntry] at h
  repeat' (first | (simp only [] at h; split at h) | split at h)
  all_goals simp_all

theorem sf_parseNodeChildren :
    ∀ fuel s i j, Pf.parseNodeChildren fuel s i = .ok (.fail j) → j = i := by
  intro fuel s i j h
  match fuel with
  | 0 => simp [Pf.parseNodeChildren] at h
  | fuel + 1 =>
    rw [Pf.parseNodeChildren] at h
    repeat' (first | (simp only [] at h; split at h) | split at h)
    all_goals simp_all

theorem sf_parseBaseNode :
    ∀ fuel s i j, Pf.parseBaseNode fuel s i = .ok (.fail j) → j = i := by
  intro fuel s i j h
  match fuel with
  | 0 => simp [Pf.parseBaseNode] at h
  | fuel + 1 =>
    rw [Pf.parseBaseNode] at h
    repeat' (first | (simp only [] at h; split at h) | split at h)
    all_goals simp_all

/-- C3.  Soft failure never consumes input: for every parser production of
`parsefuncs.py`, every input stream and every start index, when the
production fails softly (returns a failure `Result` rather than raising a
hard `ParseError`), the index carried by the failure equals the start index
the production was given.  One conjunct per production (the string-scanning
loops `parseQuotedString`/`parseMultilineString` never fail softly at all,
so their conjuncts hold vacuously, which is proved rather than assumed). -/
theorem claim3_soft_failure_preserves_index :
    (∀ s i c j, Pf.parseRepeatedChar s i c = .fail j → j = i) ∧
    (∀ s i j, Pf.parseNewline s i = .fail j → j = i) ∧
    (∀ s i j, Pf.parseUnicodeSpace s i = .fail j → j = i) ∧
    (∀ s i j, Pf.parseSingleLineComment s i = .fail j → j = i) ∧
    (∀ s i j, Pf.parseSign s i = .fail j → j = i) ∧
    (∀ s i j, Pf.parseDigits s i = .fail j → j = i) ∧
    (∀ s i j, Pf.parseIdentStart s i = .fail j → j = i) ∧
    (∀ s i j, Pf.parseBareIdent s i = .fail j → j = i) ∧
    (∀ s i j, Pf.parseNodeTerminator s i = .fail j → j = i) ∧
    (∀ s i j, Pf.parseInitialHashes s i = .fail j → j = i) ∧
    (∀ s i j, Pf.parseFinalHashes s i = .fail j → j = i) ∧
    (∀ s i j, Pf.parseIdentString s i = .ok (.fail j) → j = i) ∧
    (∀ s i j, Pf.parseKeyword s i = .ok (.fail j) → j = i) ∧
    (∀ s i j, Pf.parseBinaryNumber s i = .ok (.fail j) → j = i) ∧
    (∀ s i j, Pf.parseOctalNumber s i = .ok (.fail j) → j = i) ∧
    (∀ s i j, Pf.parseHexNumber s i = .ok (.fail j) → j = i) ∧
    (∀ s i j, Pf.parseDecimalNumber s i = .ok (.fail j) → j = i) ∧
    (∀ s i j, Pf.parseNumber s i = .ok (.fail j) → j = i) ∧
    (∀ s i j, Pf.parseEscape s i = .ok (.fail j) → j = i) ∧
    (∀ fuel s i hc j, Pf.parseQuotedString fuel s i hc = .ok (.fail j) → j = i) ∧
    (∀ fuel s i hc j, Pf.parseMultilineString fuel s i hc = .ok (.fail j) → j = i) ∧
    (∀ fuel s i j, Pf.parseString fuel s i = .ok (.fail j) → j = i) ∧
    (∀ fuel s i j, Pf.parseTag fuel s i = .ok (.fail j) → j = i) ∧
    (∀ fuel s i j, Pf.parseEscline fuel s i = .ok (.fail j) → j = i) ∧
    (∀ fuel s i j, Pf.parseWhitespace fuel s i = .ok (.fail j) → j = i) ∧
    (∀ fuel s i j, Pf.parseNodespace fuel s i = .ok (.fail j) → j = i) ∧
    (∀ fuel s i j, Pf.parseLinespace fuel s i = .ok (.fail j) → j = i) ∧
    (∀ fuel s i j, Pf.parseSlashDash fuel s i = .ok (.fail j) → j = i) ∧
    (∀ fuel s i j, Pf.parseBlockComment fuel s i = .ok (.fail j) → j = i) ∧
    (∀ fuel s i j, Pf.parseValue fuel s i = .ok (.fail j) → j = i) ∧
    (∀ fuel s i j, Pf.parseProperty fuel s i = .ok (.fail j) → j = i) ∧
    (∀ fuel s i j, Pf.parseAttribute fuel s i = .ok (.fail j) → j = i) ∧
    (∀ fuel s i j, Pf.parseEntry fuel s i = .ok (.fail j) → j = i) ∧
    (∀ fuel s i j, Pf.parseNodeChildren fuel s i = .ok (.fail j) → j = i) ∧
    (∀ fuel s i j, Pf.parseBaseNode fuel s i = .ok (.fail j) → j = i) :=
  ⟨sf_parseRepeatedChar, sf_parseNewline, sf_parseUnicodeSpace, sf_parseSingleLineComment,
    sf_parseSign, sf_parseDigits, sf_parseIdentStart, sf_parseBareIdent,
    sf_parseNodeTerminator, sf_parseInitialHashes, sf_parseFinalHashes, sf_parseIdentString,
    sf_parseKeyword, sf_parseBinaryNumber, sf_parseOctalNumber, sf_parseHexNumber,
    sf_parseDecimalNumber, sf_parseNumber, sf_parseEscape, sf_parseQuotedString,
    sf_parseMultilineString, sf_parseString, sf_parseTag, sf_parseEscline,
    sf_parseWhitespace, sf_parseNodespace, sf_parseLinespace, sf_parseSlashDash,
    sf_parseBlockComment, sf_parseValue, sf_parseProperty, sf_parseAttribute,
    sf_parseEntry, sf_parseNodeChildren, sf_parseBaseNode⟩

/-- C3 witness: `parseProperty` on `"x"` at index 0 finds the identifier
`x` but no `=`, fails softly, and indeed returns index 0; the theorem
applied at that concrete run discharges its hypothesis by evaluation. -/
theorem claim3_witness :
    Pf.parseProperty 5 ("x".toList) 0 = .ok (.fail 0) ∧ (0 : Nat) = 0 :=
  ⟨rfl, claim3_soft_failure_preserves_index.2.2.2.2.2.2.2.2.2.2.2.2.2.2.2.2.2.2.2.2.2.2.2.2.2.2.2.2.2.2.1
    5 ("x".toList) 0 0 rfl⟩

/-- C1.  The print/parse round trip fails: the in-memory node
`Node(name="inf")` prints (default configuration) as `inf\n`, but parsing
that text raises a hard error — the printer's bare-identifier check
(`types.isBareIdent`) predates the v2 grammar and still lets the
keyword-confusable identifiers `inf`, `-inf` and `nan` print bare, while
`parsefuncs.parseIdentString` rejects them.  So `parse(N.print())` is not
even defined for this `N`, refuting the round-trip claim. -/
theorem claim1_round_trip_counterexample :
    Types.nodePrint Types.printDefaults 0
        (.mk "inf".toList none [] [] []) = some "inf\n".toList ∧
    Pf.parse 32 "inf\n".toList = .error ⟨0,
      "Ident strings confusable with keywords aren't allowed; use a quoted string. Got '\x7bident\x7d'."⟩ := by
  constructor
  · rfl
  · set_option maxRecDepth 10000 in rfl

/-- C8 counterexample.  The spec's grammar makes the nodespace before a
child block's `\x7b` optional, but the code does not: in `a\x7b\x7d` the `\x7b`
immediately follows the node name, `realChildrenLoop` never reaches
`parseNodeChildren` because `parseNodespace` fails softly first, and the
document-level node-terminator check then raises a hard error at the `\x7b`. -/
theorem claim8_counterexample :
    Pf.parse 32 "a\x7b\x7d\n".toList =
      .error ⟨1, "Expected a node terminator (newline, ;, or EOF). Got '\x7b'"⟩ := by
  set_option maxRecDepth 10000 in rfl

/-- C8 (amended).  A child block attaches to a node only when nodespace
precedes its `\x7b`: whenever `parseNodespace` fails softly at `i`, the
child-block pass of `parseBaseNode` (`realChildrenLoop`) returns no
children and leaves the index at `i`; with the required nodespace present,
`a \x7bb\n\x7d` parses and the block's nodes become `a`'s children (and an
empty block `a \x7b\x7d` parses with no children). -/
theorem claim8_child_block_requires_nodespace :
    (∀ fuel s i j, Pf.parseNodespace fuel s i = .ok (.fail j) →
      Pf.realChildrenLoop (fuel + 1) s i = .ok (none, i)) ∧
    Pf.parse 32 "a \x7bb\n\x7d\n".toList =
      .ok [.mk "a".toList none [] [.mk "b".toList none [] []]] ∧
    Pf.parse 32 "a \x7b\x7d\n".toList = .ok [.mk "a".toList none [] []] := by
  refine ⟨?_, ?_, ?_⟩
  · intro fuel s i j h
    rw [Pf.realChildrenLoop, h]
    rfl
  · set_option maxRecDepth 10000 in rfl
  · set_option maxRecDepth 10000 in rfl

/-- C8 witness: in `a\x7b\x7d` the nodespace production fails softly right
after the name, so the child-block pass returns no children there. -/
theorem claim8_witness :
    Pf.parseNodespace 5 "a\x7b\x7d\n".toList 1 = .ok (.fail 1) ∧
    Pf.realChildrenLoop 6 "a\x7b\x7d\n".toList 1 = .ok (none, 1) :=
  ⟨rfl, claim8_child_block_requires_nodespace.1 5 "a\x7b\x7d\n".toList 1 1 rfl⟩

/-- C6.  Built-in `f32`/`f64` conversion does not produce a float: the
converter table maps both tags to `int`, so `(f32)1.5` converts to the
truncated integer `1`, not the float `1.5` — `converters.toNative` runs
`int(val.value)` for these tags (`int` truncates toward zero), and a full
parse of `a (f32)1.5` stores the Python int `1` in the node's entries. -/
theorem claim6_f32_truncation_counterexample :
    Pf.toNative 7 "1.5".toList
        (.decimal (.float (3 / 2)) 0 (some "f32".toList)) = .ok (.pyInt 1) ∧
    Pf.toNative 7 "1.5".toList
        (.decimal (.float (3 / 2)) 0 (some "f64".toList)) = .ok (.pyInt 1) ∧
    Pf.parse 32 "a (f32)1.5\n".toList =
      .ok [.mk "a".toList none [(none, .pyInt 1)] []] ∧
    Pf.EVal.pyInt 1 ≠ Pf.EVal.pyFloat (.finite (3 / 2)) := by
  refine ⟨by with_unfolding_all rfl, by with_unfolding_all rfl, ?_, by decide⟩
  set_option maxRecDepth 10000 in with_unfolding_all rfl

/-- C7.  Keyword handling: the six literals `#true`, `#false`, `#null`,
`#inf`, `#-inf`, `#nan` are accepted with their respective values
(`types.Infinity`/`types.NaN` modelled from the spec as ±infinity and NaN,
their classes being absent from `src/kdl/types.py`); a `#`-prefixed
identifier that matches a keyword case-insensitively but not exactly is a
hard error, any other `#`-prefixed identifier is a hard "unknown keyword"
error; and a bare identifier-string that case-insensitively equals a
keyword is a hard error wherever a string is parsed — shown both
generally and on the full documents `a #True` and `a inf`. -/
theorem claim7_keywords :
    Pf.parseKeyword "#true".toList 0 = .ok (.ok (.bool true none) 5) ∧
    Pf.parseKeyword "#false".toList 0 = .ok (.ok (.bool false none) 6) ∧
    Pf.parseKeyword "#null".toList 0 = .ok (.ok (.null none) 5) ∧
    Pf.parseKeyword "#inf".toList 0 = .ok (.ok (.infinity false none) 4) ∧
    Pf.parseKeyword "#-inf".toList 0 = .ok (.ok (.infinity true none) 5) ∧
    Pf.parseKeyword "#nan".toList 0 = .ok (.ok (.nan none) 4) ∧
    (∀ s start ident i, Pf.ceq (charAt s start) '#' = true →
      Pf.parseBareIdent s (start + 1) = .ok ident i →
      ident ≠ "true".toList → ident ≠ "false".toList → ident ≠ "null".toList →
      ident ≠ "inf".toList → ident ≠ "-inf".toList → ident ≠ "nan".toList →
      Pf.keywordStrs.contains (Pf.pyLower ident) = true →
      Pf.parseKeyword s start =
        .error ⟨start, "KDL keywords must be written in lowercase, got #" ++ String.mk ident⟩) ∧
    (∀ s start ident i, Pf.ceq (charAt s start) '#' = true →
      Pf.parseBareIdent s (start + 1) = .ok ident i →
      ident ≠ "true".toList → ident ≠ "false".toList → ident ≠ "null".toList →
      ident ≠ "inf".toList → ident ≠ "-inf".toList → ident ≠ "nan".toList →
      Pf.keywordStrs.contains (Pf.pyLower ident) = false →
      Pf.parseKeyword s start = .error ⟨start, "Unknown keyword #" ++ String.mk ident⟩) ∧
    (∀ s start ident i, Pf.parseBareIdent s start = .ok ident i →
      Pf.keywordStrs.contains (Pf.pyLower ident) = true →
      Pf.parseIdentString s start = .error ⟨start,
        "Ident strings confusable with keywords aren't allowed; use a quoted string. Got '\x7bident\x7d'."⟩) ∧
    Pf.parse 32 "a #True\n".toList =
      .error ⟨2, "KDL keywords must be written in lowercase, got #True"⟩ ∧
    Pf.parse 32 "a inf\n".toList = .error ⟨2,
      "Ident strings confusable with keywords aren't allowed; use a quoted string. Got '\x7bident\x7d'."⟩ := by
  refine ⟨rfl, rfl, rfl, rfl, rfl, rfl, ?_, ?_, ?_, ?_, ?_⟩
  · intro s start ident i h1 h2 n1 n2 n3 n4 n5 n6 hc
    have m1 : ident ≠ ['t', 'r', 'u', 'e'] := by simpa using n1
    have m2 : ident ≠ ['f', 'a', 'l', 's', 'e'] := by simpa using n2
    have m3 : ident ≠ ['n', 'u', 'l', 'l'] := by simpa using n3
    have m4 : ident ≠ ['i', 'n', 'f'] := by simpa using n4
    have m5 : ident ≠ ['-', 'i', 'n', 'f'] := by simpa using n5
    have m6 : ident ≠ ['n', 'a', 'n'] := by simpa using n6
    have hm : Pf.pyLower ident ∈ Pf.keywordStrs := by simpa using hc
    rw [Pf.parseKeyword, h1, h2]
    simp [m1, m2, m3, m4, m5, m6, hm]
  · intro s start ident i h1 h2 n1 n2 n3 n4 n5 n6 hc
    have m1 : ident ≠ ['t', 'r', 'u', 'e'] := by simpa using n1
    have m2 : ident ≠ ['f', 'a', 'l', 's', 'e'] := by simpa using n2
    have m3 : ident ≠ ['n', 'u', 'l', 'l'] := by simpa using n3
    have m4 : ident ≠ ['i', 'n', 'f'] := by simpa using n4
    have m5 : ident ≠ ['-', 'i', 'n', 'f'] := by simpa using n5
    have m6 : ident ≠ ['n', 'a', 'n'] := by simpa using n6
    have hm : Pf.pyLower ident ∉ Pf.keywordStrs := by simpa using hc
    rw [Pf.parseKeyword, h1, h2]
    simp [m1, m2, m3, m4, m5, m6, hm]
  · intro s start ident i h1 hc
    have hm : Pf.pyLower ident ∈ Pf.keywordStrs := by simpa using hc
    rw [Pf.parseIdentString, h1]
    simp [hm]
  · set_option maxRecDepth 10000 in rfl
  · set_option maxRecDepth 10000 in rfl

/-- C7 witness: `#True` matches a keyword case-insensitively but not
exactly, and its parse is indeed the lowercase-keyword hard error. -/
theorem claim7_witness :
    Pf.parseBareIdent "#True".toList 1 = .ok "True".toList 5 ∧
    Pf.parseKeyword "#True".toList 0 =
      .error ⟨0, "KDL keywords must be written in lowercase, got #True"⟩ :=
  ⟨rfl, claim7_keywords.2.2.2.2.2.2.1 "#True".toList 0 "True".toList 5 rfl rfl
    (by decide) (by decide) (by decide) (by decide) (by decide) (by decide) rfl⟩

theorem processLine_eq_ok (pre : Chars) (l : Pf.MSLine)
    (h : l.text = [] ∨ leadsWith l.indent pre = true) :
    Pf.processLine pre l = .ok (Pf.dedentLine pre l) := by
  rcases h with h | h
  · rw [Pf.processLine, if_pos h, Pf.dedentLine, if_pos h]
  · rw [Pf.processLine, Pf.dedentLine]
    by_cases ht : l.text = []
    · rw [if_pos ht, if_pos ht]
    · rw [if_neg ht, if_neg ht, if_pos h]

theorem mapM_processLine_ok (pre : Chars) (lines : List Pf.MSLine)
    (h : ∀ l ∈ lines, l.text = [] ∨ leadsWith l.indent pre = true) :
    lines.mapM (Pf.processLine pre) = .ok (lines.map (Pf.dedentLine pre)) := by
  induction lines with
  | nil => rfl
  | cons hd tl ih =>
    rw [List.mapM_cons, processLine_eq_ok pre hd (h hd (by simp)),
      ih (fun l hl => h l (by simp [hl])), List.map_cons]
    rfl

theorem mapM_processLine_error (pre : Chars) (lines : List Pf.MSLine) (l : Pf.MSLine)
    (hmem : l ∈ lines) (hlt : l.text ≠ []) (hlw : leadsWith l.indent pre = false) :
    ∃ k, lines.mapM (Pf.processLine pre) = .error (⟨k,
      "Multiline string line doesn't start with the same whitespace prefix as the final line."⟩ : Pf.PErr) := by
  induction lines with
  | nil => cases hmem
  | cons hd tl ih =>
    by_cases hfail : hd.text ≠ [] ∧ leadsWith hd.indent pre = false
    · refine ⟨hd.i, ?_⟩
      have hpl : Pf.processLine pre hd = .error ⟨hd.i,
          "Multiline string line doesn't start with the same whitespace prefix as the final line."⟩ := by
        rw [Pf.processLine, if_neg hfail.1, if_neg (by simp [hfail.2])]
      rw [List.mapM_cons, hpl]
      rfl
    · have hok : hd.text = [] ∨ leadsWith hd.indent pre = true := by
        rcases Decidable.em (hd.text = []) with h | h
        · exact .inl h
        · right
          rcases Bool.eq_false_or_eq_true (leadsWith hd.indent pre) with hb | hb
          · exact hb
          · exact absurd ⟨h, hb⟩ hfail
      have hmem' : l ∈ tl := by
        rcases List.mem_cons.mp hmem with rfl | hm
        · exact absurd ⟨hlt, hlw⟩ hfail
        · exact hm
      obtain ⟨k, hk⟩ := ih hmem'
      refine ⟨k, ?_⟩
      rw [List.mapM_cons, processLine_eq_ok pre hd hok, hk]
      rfl

/-- C4.  Multiline strings: no newline right after the opening quotes is a
hard error; non-whitespace on the final line is a hard error; when the
final line is whitespace-only its indent is the dedent prefix, every line
either is whitespace-only or must start with that prefix (a hard error
otherwise), the prefix is stripped, and the lines are joined with `\n`
(`specMultilineValue`, written from the spec's description) — shown both
for `processMultiline` in general and end-to-end on `a """⏎  hi⏎  """`. -/
theorem claim4_multiline_dedent :
    (∀ fuel s start hashCount j, Pf.parseNewline s start = .fail j →
      Pf.parseMultilineString fuel s start hashCount = .error ⟨start,
        "Multiline strings must have a newline immediately after their opening quotes."⟩) ∧
    (∀ lines last, last.text ≠ [] → Pf.processMultiline lines last = .error ⟨last.i,
        "Multiline string ended with non-whitespace content on last line."⟩) ∧
    (∀ lines last, last.text = [] →
      (∀ l ∈ lines, l.text = [] ∨ leadsWith l.indent last.indent = true) →
      Pf.processMultiline lines last = .ok (Pf.specMultilineValue last.indent lines)) ∧
    (∀ lines last l, last.text = [] → l ∈ lines → l.text ≠ [] →
      leadsWith l.indent last.indent = false →
      ∃ k, Pf.processMultiline lines last = .error ⟨k,
        "Multiline string line doesn't start with the same whitespace prefix as the final line."⟩) ∧
    Pf.parse 64 "a \"\"\"\n  hi\n  \"\"\"\n".toList =
      .ok [.mk "a".toList none [(none, .pyStr "hi".toList)] []] := by
  refine ⟨?_, ?_, ?_, ?_, ?_⟩
  · intro fuel s start hashCount j h
    rw [Pf.parseMultilineString.eq_def, h]
  · intro lines last h
    rw [Pf.processMultiline, if_pos h]
  · intro lines last h hall
    rw [Pf.processMultiline, if_neg (fun hn => hn h),
      mapM_processLine_ok last.indent lines hall]
    show Except.ok _ = _
    rw [Pf.specMultilineValue, List.map_map]
    refine congrArg _ (congrArg _ (List.map_congr_left fun l _ => ?_))
    by_cases ht : l.text = []
    · simp [Pf.dedentLine, ht]
    · simp [Pf.dedentLine, ht]
  · intro lines last l h hmem hlt hlw
    obtain ⟨k, hk⟩ := mapM_processLine_error last.indent lines l hmem hlt hlw
    refine ⟨k, ?_⟩
    rw [Pf.processMultiline, if_neg (fun hn => hn h), hk]
    rfl
  · set_option maxRecDepth 10000 in rfl

/-- C4 witness: one content line `␣␣hi` with final-line prefix `␣␣`
dedents to `hi`, by the theorem applied at those concrete lines. -/
theorem claim4_witness :
    Pf.processMultiline [⟨5, [' ', ' '], ['h', 'i']⟩] ⟨10, [' ', ' '], []⟩ =
      .ok ['h', 'i'] ∧
    Pf.specMultilineValue [' ', ' '] [⟨5, [' ', ' '], ['h', 'i']⟩] = ['h', 'i'] := by
  have h := claim4_multiline_dedent.2.2.1 [⟨5, [' ', ' '], ['h', 'i']⟩]
    ⟨10, [' ', ' '], []⟩ rfl (by decide)
  exact ⟨h.trans rfl, rfl⟩
